import Mathlib

/-!
Verification development for the harmonizer repository (four-part
tonal-harmony exercise solver).  The Python sources under `src/` are
shallowly embedded below: Python `int` pitches become `Int`, Python
`float` scores become `ℚ` (the score computations only add, subtract,
multiply and divide by 3 and 10; real-number rounding of IEEE floats is
not modelled, only which factors are combined), Python dictionaries
keyed by `Voice` become records with one `Option Int` field per voice
(`.get` returning `None` for an absent key), and raised exceptions
become `Except`.
-/

namespace Harmonizer

/-- Decidable equality for Except values, used to state concrete facts
about fallible computations. -/
instance {ε α : Type} [DecidableEq ε] [DecidableEq α] : DecidableEq (Except ε α) :=
  fun x y =>
    match x, y with
    | .ok a, .ok b =>
      if h : a = b then .isTrue (by rw [h])
      else .isFalse (by intro hc; cases hc; exact h rfl)
    | .error a, .error b =>
      if h : a = b then .isTrue (by rw [h])
      else .isFalse (by intro hc; cases hc; exact h rfl)
    | .ok _, .error _ => .isFalse (by intro hc; cases hc)
    | .error _, .ok _ => .isFalse (by intro hc; cases hc)

/-- The four voices, from music_utils.Voice. -/
inductive Voice where
  | SOPRANO
  | ALTO
  | TENOR
  | BASS
deriving DecidableEq, Repr, Fintype

/-- Voice.value: the single-letter tag of a voice. -/
def Voice.value : Voice → String
  | .SOPRANO => "S"
  | .ALTO => "A"
  | .TENOR => "T"
  | .BASS => "B"

/-- VOICE_RANGES from music_utils.py: (low, high) MIDI bounds per voice. -/
def VOICE_RANGES : Voice → Int × Int
  | .SOPRANO => (60, 84)
  | .ALTO => (55, 72)
  | .TENOR => (48, 69)
  | .BASS => (40, 60)

/-- midi_to_pitch_class: midi % 12 (Python % on a positive modulus agrees
with Int.emod). -/
def midi_to_pitch_class (midi : Int) : Int := midi % 12

/-- get_interval_semitones: absolute difference of two MIDI notes. -/
def get_interval_semitones (note1 note2 : Int) : Int := |note2 - note1|

/-- is_perfect_fifth: interval class 7. -/
def is_perfect_fifth (note1 note2 : Int) : Bool :=
  get_interval_semitones note1 note2 % 12 == 7

/-- is_perfect_octave: interval class 0 (unisons included). -/
def is_perfect_octave (note1 note2 : Int) : Bool :=
  get_interval_semitones note1 note2 % 12 == 0

/-- get_chord_tones from music_utils.py.  The chord quality is the raw
Python string; an unrecognized quality falls through to the final `else`
branch, which returns the major-triad template. -/
def get_chord_tones (root : Int) (chord_type : String) : List Int :=
  let root_pc := midi_to_pitch_class root
  if chord_type == "major" then
    [root_pc, (root_pc + 4) % 12, (root_pc + 7) % 12]
  else if chord_type == "minor" then
    [root_pc, (root_pc + 3) % 12, (root_pc + 7) % 12]
  else if chord_type == "diminished" then
    [root_pc, (root_pc + 3) % 12, (root_pc + 6) % 12]
  else if chord_type == "augmented" then
    [root_pc, (root_pc + 4) % 12, (root_pc + 8) % 12]
  else if chord_type == "dominant7" then
    [root_pc, (root_pc + 4) % 12, (root_pc + 7) % 12, (root_pc + 10) % 12]
  else if chord_type == "major7" then
    [root_pc, (root_pc + 4) % 12, (root_pc + 7) % 12, (root_pc + 11) % 12]
  else if chord_type == "minor7" then
    [root_pc, (root_pc + 3) % 12, (root_pc + 7) % 12, (root_pc + 10) % 12]
  else if chord_type == "half_diminished7" then
    [root_pc, (root_pc + 3) % 12, (root_pc + 6) % 12, (root_pc + 10) % 12]
  else if chord_type == "fully_diminished7" then
    [root_pc, (root_pc + 3) % 12, (root_pc + 6) % 12, (root_pc + 9) % 12]
  else
    [root_pc, (root_pc + 4) % 12, (root_pc + 7) % 12]

/-- A total voicing: the solver always builds a dict with all four
voices present (solver.py builds {S:s, A:a, T:t, B:b}). -/
structure Voicing where
  s : Int
  a : Int
  t : Int
  b : Int
deriving DecidableEq, Repr

/-- A possibly-partial voicing: a Python Dict[Voice, int]; `.get`
returns None for absent keys (the counterpoint code builds dicts
holding only S and B). -/
structure PVoicing where
  s : Option Int
  a : Option Int
  t : Option Int
  b : Option Int
deriving DecidableEq, Repr

/-- Dict.get on a partial voicing. -/
def PVoicing.get (v : PVoicing) : Voice → Option Int
  | .SOPRANO => v.s
  | .ALTO => v.a
  | .TENOR => v.t
  | .BASS => v.b

/-- Dict assignment voices[voice] = note on a partial voicing. -/
def PVoicing.set (v : PVoicing) : Voice → Int → PVoicing
  | .SOPRANO, n => { v with s := some n }
  | .ALTO, n => { v with a := some n }
  | .TENOR, n => { v with t := some n }
  | .BASS, n => { v with b := some n }

/-- View of a total voicing as a dict with all four keys present. -/
def Voicing.toP (v : Voicing) : PVoicing :=
  ⟨some v.s, some v.a, some v.t, some v.b⟩

/-- Lookup on a total voicing. -/
def Voicing.get (v : Voicing) : Voice → Int
  | .SOPRANO => v.s
  | .ALTO => v.a
  | .TENOR => v.t
  | .BASS => v.b

/-- items() of a partial voicing: the present (Voice, pitch) entries in
dict insertion order S, A, T, B. -/
def PVoicing.items (v : PVoicing) : List (Voice × Int) :=
  (match v.s with | some n => [(Voice.SOPRANO, n)] | none => []) ++
  (match v.a with | some n => [(Voice.ALTO, n)] | none => []) ++
  (match v.t with | some n => [(Voice.TENOR, n)] | none => []) ++
  (match v.b with | some n => [(Voice.BASS, n)] | none => [])

/-- ConstraintViolation from constraints.py. -/
structure ConstraintViolation where
  rule_name : String
  description : String
  severity : String
deriving DecidableEq, Repr

/-- ConstraintChecker.check_voice_range. -/
def check_voice_range (voice : Voice) (midi_note : Int) : Option ConstraintViolation :=
  if midi_note < (VOICE_RANGES voice).1 ∨ midi_note > (VOICE_RANGES voice).2 then
    some ⟨"voice_range",
      voice.value ++ " note " ++ toString midi_note ++ " outside range [" ++
        toString (VOICE_RANGES voice).1 ++ ", " ++ toString (VOICE_RANGES voice).2 ++ "]",
      "hard"⟩
  else
    none

/-- ConstraintChecker.check_voice_order: S >= A >= T >= B on the
present voices. -/
def check_voice_order (voices : PVoicing) : Option ConstraintViolation :=
  match voices.get .SOPRANO, voices.get .ALTO with
  | some s, some a =>
    if s < a then
      some ⟨"voice_crossing",
        "Soprano (" ++ toString s ++ ") < Alto (" ++ toString a ++ ")", "hard"⟩
    else checkAT voices
  | _, _ => checkAT voices
where
  /-- The Alto/Tenor and Tenor/Bass clauses of check_voice_order. -/
  checkAT (voices : PVoicing) : Option ConstraintViolation :=
    match voices.get .ALTO, voices.get .TENOR with
    | some a, some t =>
      if a < t then
        some ⟨"voice_crossing",
          "Alto (" ++ toString a ++ ") < Tenor (" ++ toString t ++ ")", "hard"⟩
      else checkTB voices
    | _, _ => checkTB voices
  /-- The Tenor/Bass clause of check_voice_order. -/
  checkTB (voices : PVoicing) : Option ConstraintViolation :=
    match voices.get .TENOR, voices.get .BASS with
    | some t, some b =>
      if t < b then
        some ⟨"voice_crossing",
          "Tenor (" ++ toString t ++ ") < Bass (" ++ toString b ++ ")", "hard"⟩
      else none
    | _, _ => none

/-- ConstraintChecker.check_spacing: S-A and A-T at most an octave. -/
def check_spacing (voices : PVoicing) : Option ConstraintViolation :=
  match voices.get .SOPRANO, voices.get .ALTO with
  | some s, some a =>
    if get_interval_semitones s a > 12 then
      some ⟨"spacing",
        "Interval between Soprano (" ++ toString s ++ ") and Alto (" ++ toString a ++
          ") is " ++ toString (get_interval_semitones s a) ++ " semitones (> octave)",
        "hard"⟩
    else checkAT voices
  | _, _ => checkAT voices
where
  /-- The Alto/Tenor clause of check_spacing. -/
  checkAT (voices : PVoicing) : Option ConstraintViolation :=
    match voices.get .ALTO, voices.get .TENOR with
    | some a, some t =>
      if get_interval_semitones a t > 12 then
        some ⟨"spacing",
          "Interval between Alto (" ++ toString a ++ ") and Tenor (" ++ toString t ++
            ") is " ++ toString (get_interval_semitones a t) ++ " semitones (> octave)",
          "hard"⟩
      else none
    | _, _ => none

/-- The voice list [SOPRANO, ALTO, TENOR, BASS] iterated by the
parallelism checkers. -/
def voiceList : List Voice := [.SOPRANO, .ALTO, .TENOR, .BASS]

/-- The 16 ordered voice pairs scanned by the two nested loops of each
parallelism checker, in loop order. -/
def voicePairs : List (Voice × Voice) :=
  voiceList.flatMap fun v1 => voiceList.map fun v2 => (v1, v2)

/-- The per-pair body of check_parallel_fifths: skip equal voices and
absent notes, emit a violation when both steps form a perfect fifth and
both voices move in the same non-zero direction. -/
def parallelFifthAt (prev_voices curr_voices : PVoicing) (p : Voice × Voice) :
    Option ConstraintViolation :=
  if p.1 = p.2 then none
  else
    match prev_voices.get p.1, prev_voices.get p.2,
          curr_voices.get p.1, curr_voices.get p.2 with
    | some prev1, some prev2, some curr1, some curr2 =>
      if is_perfect_fifth prev1 prev2 ∧ is_perfect_fifth curr1 curr2 then
        if curr1 - prev1 ≠ 0 ∧ curr2 - prev2 ≠ 0 ∧
            (curr1 - prev1) * (curr2 - prev2) > 0 then
          some ⟨"parallel_fifths",
            "Parallel fifths between " ++ p.1.value ++ " and " ++ p.2.value, "hard"⟩
        else none
      else none
    | _, _, _, _ => none

/-- ConstraintChecker.check_parallel_fifths. -/
def check_parallel_fifths (prev_voices curr_voices : PVoicing) :
    List ConstraintViolation :=
  voicePairs.filterMap (parallelFifthAt prev_voices curr_voices)

/-- The per-pair body of check_parallel_octaves. -/
def parallelOctaveAt (prev_voices curr_voices : PVoicing) (p : Voice × Voice) :
    Option ConstraintViolation :=
  if p.1 = p.2 then none
  else
    match prev_voices.get p.1, prev_voices.get p.2,
          curr_voices.get p.1, curr_voices.get p.2 with
    | some prev1, some prev2, some curr1, some curr2 =>
      if is_perfect_octave prev1 prev2 ∧ is_perfect_octave curr1 curr2 then
        if curr1 - prev1 ≠ 0 ∧ curr2 - prev2 ≠ 0 ∧
            (curr1 - prev1) * (curr2 - prev2) > 0 then
          some ⟨"parallel_octaves",
            "Parallel octaves between " ++ p.1.value ++ " and " ++ p.2.value, "hard"⟩
        else none
      else none
    | _, _, _, _ => none

/-- ConstraintChecker.check_parallel_octaves. -/
def check_parallel_octaves (prev_voices curr_voices : PVoicing) :
    List ConstraintViolation :=
  voicePairs.filterMap (parallelOctaveAt prev_voices curr_voices)

/-- The per-pair body of check_hidden_fifths_octaves. -/
def hiddenAt (prev_voices curr_voices : PVoicing) (p : Voice × Voice) :
    Option ConstraintViolation :=
  if p.1 = p.2 then none
  else
    match prev_voices.get p.1, prev_voices.get p.2,
          curr_voices.get p.1, curr_voices.get p.2 with
    | some prev1, some prev2, some curr1, some curr2 =>
      if curr1 - prev1 ≠ 0 ∧ curr2 - prev2 ≠ 0 ∧
          (curr1 - prev1) * (curr2 - prev2) > 0 then
        if is_perfect_fifth curr1 curr2 ∨ is_perfect_octave curr1 curr2 then
          some ⟨"hidden_fifths_octaves",
            "Hidden P5/P8 between " ++ p.1.value ++ " and " ++ p.2.value ++
              " in parallel motion", "hard"⟩
        else none
      else none
    | _, _, _, _ => none

/-- ConstraintChecker.check_hidden_fifths_octaves. -/
def check_hidden_fifths_octaves (prev_voices curr_voices : PVoicing) :
    List ConstraintViolation :=
  voicePairs.filterMap (hiddenAt prev_voices curr_voices)

/-- ConstraintChecker.check_all_hard_constraints for one note: range
check, then (all callers pass a present current voicing, so the
`if curr_voices` guard is taken) voice order and spacing on a copy of
the current voicing with this voice set to this note. -/
def check_all_hard_constraints (voice : Voice) (midi_note : Int)
    (curr_voices : PVoicing) : List ConstraintViolation :=
  let temp_voices := curr_voices.set voice midi_note
  (check_voice_range voice midi_note).toList ++
    (check_voice_order temp_voices).toList ++
    (check_spacing temp_voices).toList

/-- ConstraintChecker.check_parallels: fifths, octaves, then hidden. -/
def check_parallels (prev_voices curr_voices : PVoicing) :
    List ConstraintViolation :=
  check_parallel_fifths prev_voices curr_voices ++
    check_parallel_octaves prev_voices curr_voices ++
    check_hidden_fifths_octaves prev_voices curr_voices

/-! SoftConstraintScorer from constraints.py.  Scores are ℚ models of
the Python floats. -/

/-- SoftConstraintScorer.score_voice_motion. -/
def score_voice_motion (prev_note : Option Int) (curr_note : Int) : ℚ :=
  match prev_note with
  | none => 0
  | some p =>
    let motion := |curr_note - p|
    if motion = 0 then 0
    else if motion ≤ 2 then 1
    else if motion ≤ 7 then 3
    else 10

/-- SoftConstraintScorer.score_contrary_motion_to_bass. -/
def score_contrary_motion_to_bass (bass_motion voice_motion : Int) : ℚ :=
  if bass_motion = 0 ∨ voice_motion = 0 then 0
  else if bass_motion * voice_motion < 0 then -2
  else 2

/-- SoftConstraintScorer.score_doubling: count present voices whose
pitch class equals the root pitch class. -/
def score_doubling (voices : PVoicing) (root_pc : Int) : ℚ :=
  let root_count :=
    (voices.items.filter fun e => midi_to_pitch_class e.2 == root_pc).length
  if root_count ≥ 2 then -1
  else if root_count = 0 then 5
  else 0

/-- SoftConstraintScorer.score_leading_tone_doubling. -/
def score_leading_tone_doubling (voices : PVoicing) (leading_tone_pc : Int) : ℚ :=
  let lt_count :=
    (voices.items.filter fun e => midi_to_pitch_class e.2 == leading_tone_pc).length
  if lt_count ≥ 2 then 10 else 0

/-- SoftConstraintScorer.score_chord_spacing: 0.1 times the variance of
the three adjacent-voice gaps, 0 when any voice is absent. -/
def score_chord_spacing (voices : PVoicing) : ℚ :=
  match voices.s, voices.a, voices.t, voices.b with
  | some s, some a, some t, some b =>
    let sa : ℚ := Rat.ofInt (get_interval_semitones s a)
    let at_ : ℚ := Rat.ofInt (get_interval_semitones a t)
    let tb : ℚ := Rat.ofInt (get_interval_semitones t b)
    let avg := (sa + at_ + tb) / 3
    let variance := ((sa - avg) ^ 2 + (at_ - avg) ^ 2 + (tb - avg) ^ 2) / 3
    variance * (1 / 10)
  | _, _, _, _ => 0

/-- The contribution of one upper voice inside total_score's loop: the
Python `if curr_note:` guard skips the voice when its current note is
absent or zero; the nested `if prev_note:` guard adds the
contrary-motion term only when the previous note is present and
nonzero. -/
def totalScoreVoiceTerm (prev_voices : Option PVoicing) (curr_voices : PVoicing)
    (bass_motion : Int) (voice : Voice) : ℚ :=
  let prev_note := match prev_voices with
    | some pv => pv.get voice
    | none => none
  match curr_voices.get voice with
  | none => 0
  | some c =>
    if c = 0 then 0
    else
      score_voice_motion prev_note c +
        match prev_note with
        | some p =>
          if p = 0 then 0
          else score_contrary_motion_to_bass bass_motion (c - p)
        | none => 0

/-- SoftConstraintScorer.total_score: upper-voice motion and
counterpoint terms, doubling, leading-tone doubling, spacing. -/
def total_score (prev_voices : Option PVoicing) (curr_voices : PVoicing)
    (bass_motion : Int) (root_pc : Option Int) (leading_tone_pc : Option Int) : ℚ :=
  ([Voice.SOPRANO, Voice.ALTO, Voice.TENOR].foldl
    (fun acc voice => acc + totalScoreVoiceTerm prev_voices curr_voices bass_motion voice)
    0) +
  (match root_pc with
    | some rpc => score_doubling curr_voices rpc
    | none => 0) +
  (match leading_tone_pc with
    | some lt => score_leading_tone_doubling curr_voices lt
    | none => 0) +
  score_chord_spacing curr_voices

/-! BeamSearchSolver from solver.py. -/

/-- Solution from solver.py: a voicing (always total when built by the
solver), its score, and the violation list it was stored with. -/
structure Solution where
  voices : Voicing
  score : ℚ
  violations : List ConstraintViolation
deriving DecidableEq, Repr

/-- The inclusive integer range list(range(lo, hi + 1)). -/
def intRange (lo hi : Int) : List Int :=
  (List.range (hi + 1 - lo).toNat).map fun (k : Nat) => lo + (k : Int)

/-- BeamSearchSolver.generate_candidate_notes: all notes of the voice's
range whose pitch class is a chord tone. -/
def generate_candidate_notes (voice : Voice) (bass_note : Int)
    (chord_type : String) : List Int :=
  let r := VOICE_RANGES voice
  let chord_tones_pc := get_chord_tones bass_note chord_type
  (intRange r.1 r.2).filter fun midi => midi_to_pitch_class midi ∈ chord_tones_pc

/-- The s/a/t triples enumerated by the three nested loops of
solve_step, in loop order. -/
def candidateTriples (bass_note : Int) (chord_type : String) :
    List (Int × Int × Int) :=
  (generate_candidate_notes .SOPRANO bass_note chord_type).flatMap fun s =>
    (generate_candidate_notes .ALTO bass_note chord_type).flatMap fun a =>
      (generate_candidate_notes .TENOR bass_note chord_type).map fun t => (s, a, t)

/-- The within-step violations gathered for one candidate voicing: the
per-voice loop over curr_voices.items() runs check_all_hard_constraints
for every voice except the bass. -/
def withinStepViolations (curr : Voicing) : List ConstraintViolation :=
  check_all_hard_constraints .SOPRANO curr.s curr.toP ++
    check_all_hard_constraints .ALTO curr.a curr.toP ++
    check_all_hard_constraints .TENOR curr.t curr.toP

/-- The cross-step violations gathered for one candidate: check_parallels
against every predecessor solution in the beam, accumulated in beam
order. -/
def crossStepViolations (prev_solutions : List Solution) (curr : Voicing) :
    List ConstraintViolation :=
  prev_solutions.flatMap fun prev_sol => check_parallels prev_sol.voices.toP curr.toP

/-- The candidate pool built by solve_step's triple loop for a non-empty
predecessor beam, before sorting and truncation: a candidate is kept
when the accumulated violation list has no "hard" entry, and is scored
by total_score against the first predecessor's voicing, with bass
motion relative to that voicing and the bass pitch class as root. -/
def stepPool (bass_note : Int) (prev_solutions : List Solution)
    (chord_type : String) : List Solution :=
  (candidateTriples bass_note chord_type).filterMap fun c =>
    let curr : Voicing := ⟨c.1, c.2.1, c.2.2, bass_note⟩
    let violations := withinStepViolations curr ++ crossStepViolations prev_solutions curr
    if (violations.filter fun v => v.severity == "hard") = [] then
      let prevV := prev_solutions.head?.map fun p => p.voices
      let bass_motion := match prevV with
        | some pv => bass_note - pv.b
        | none => 0
      some ⟨curr, total_score (prevV.map Voicing.toP) curr.toP bass_motion
        (some (midi_to_pitch_class bass_note)) none, violations⟩
    else none

/-- Stable insertion into a score-sorted list: the new element goes
before the first element of strictly larger score, so that elements of
equal score keep their generation order (Python's list.sort is
stable). -/
def insertByScore (x : Solution) : List Solution → List Solution
  | [] => [x]
  | y :: ys => if x.score ≤ y.score then x :: y :: ys else y :: insertByScore x ys

/-- Stable sort ascending by score, modelling solutions.sort(key=score). -/
def sortByScore : List Solution → List Solution
  | [] => []
  | x :: xs => insertByScore x (sortByScore xs)

/-- The candidate pool of _solve_first_step (no predecessor beam): the
same triple loop, with only within-step checks, scored with prev = None
and bass motion 0. -/
def firstStepPool (bass_note : Int) (chord_type : String) : List Solution :=
  (candidateTriples bass_note chord_type).filterMap fun c =>
    let curr : Voicing := ⟨c.1, c.2.1, c.2.2, bass_note⟩
    let violations := withinStepViolations curr
    if (violations.filter fun v => v.severity == "hard") = [] then
      some ⟨curr, total_score none curr.toP 0
        (some (midi_to_pitch_class bass_note)) none, violations⟩
    else none

/-- BeamSearchSolver.solve_step: first-step enumeration when the beam
is empty, otherwise filter against the beam; sort ascending by score
and keep the first beam_width solutions. -/
def solve_step (beam_width : Nat) (bass_note : Int)
    (prev_solutions : List Solution) (chord_type : String) : List Solution :=
  match prev_solutions with
  | [] => (sortByScore (firstStepPool bass_note chord_type)).take beam_width
  | _ :: _ => (sortByScore (stepPool bass_note prev_solutions chord_type)).take beam_width

/-- Overwriting the bass of a cloned voicing, as in the fallback branch
prev_voices[Voice.BASS] = bass_note. -/
def Voicing.setBass (v : Voicing) (bass_note : Int) : Voicing :=
  { v with b := bass_note }

/-- The loop body of BeamSearchSolver.solve, instrumented with a Bool
per emitted step that records whether the fallback branch ran.  `i` is
the enumerate index (used for the chord_types lookup and the error
message); the chord type of step i is chord_types[i] when i is in
range, else "major". -/
def solveLoop (beam_width : Nat) (chord_types : List String) :
    Nat → List Int → List Solution → Except String (List (Solution × Bool))
  | _, [], _ => .ok []
  | i, bass_note :: rest, prev_solutions =>
    let chord_type := chord_types.getD i "major"
    let solutions := solve_step beam_width bass_note prev_solutions chord_type
    match solutions with
    | [] =>
      match prev_solutions with
      | [] => .error ("No valid solution found for step " ++ toString i)
      | p :: _ =>
        let sentinel : Solution := ⟨p.voices.setBass bass_note, 100, []⟩
        (solveLoop beam_width chord_types (i + 1) rest [sentinel]).map
          fun tl => (sentinel, true) :: tl
    | best :: _ =>
      (solveLoop beam_width chord_types (i + 1) rest solutions).map
        fun tl => (best, false) :: tl

/-- BeamSearchSolver.solve with the emitted per-step Solutions and
fallback flags exposed.  When no chord_types list is supplied the
Python code builds ["major"] * len(bass_line), which the getD "major"
lookup in solveLoop reproduces. -/
def solveFull (beam_width : Nat) (bass_line : List Int)
    (chord_types : List String) : Except String (List (Solution × Bool)) :=
  solveLoop beam_width chord_types 0 bass_line []

/-- BeamSearchSolver.solve: the per-step best voicings (the Python
return value all_solutions). -/
def solve (beam_width : Nat) (bass_line : List Int)
    (chord_types : List String) : Except String (List Voicing) :=
  (solveFull beam_width bass_line chord_types).map (List.map fun e => e.1.voices)

/-! DissonanceResolver from dissonance.py.  (Its methods are defined in
the repository but never invoked by the beam-search solver.) -/

/-- DissonanceResolver.is_seventh: the note's pitch class is 10 or 11
semitones above the root pitch class. -/
def is_seventh (note_pc root_pc : Int) : Bool :=
  let interval := (note_pc - root_pc) % 12
  interval == 10 || interval == 11

/-- The per-voice body of check_seventh_resolution: the Python
`if prev_note and curr_note:` guard requires both notes present and
nonzero; a chordal seventh must then move down by 1 or 2 semitones. -/
def seventhResolutionAt (prev_voices curr_voices : PVoicing) (root_pc : Int)
    (voice : Voice) : Option ConstraintViolation :=
  match prev_voices.get voice, curr_voices.get voice with
  | some prev_note, some curr_note =>
    if prev_note = 0 ∨ curr_note = 0 then none
    else
      let prev_pc := midi_to_pitch_class prev_note
      if is_seventh prev_pc root_pc then
        let motion := curr_note - prev_note
        if motion > 0 then
          some ⟨"seventh_resolution",
            voice.value ++ " seventh (" ++ toString prev_note ++
              ") should resolve down, but moved up to " ++ toString curr_note, "hard"⟩
        else if motion < -2 then
          some ⟨"seventh_resolution",
            voice.value ++ " seventh (" ++ toString prev_note ++
              ") should resolve down by step, but moved down " ++
              toString |motion| ++ " semitones", "hard"⟩
        else if motion = 0 then
          some ⟨"seventh_resolution",
            voice.value ++ " seventh (" ++ toString prev_note ++
              ") should resolve down, but stayed the same", "hard"⟩
        else none
      else none
  | _, _ => none

/-- DissonanceResolver.check_seventh_resolution. -/
def check_seventh_resolution (prev_voices curr_voices : PVoicing)
    (root_pc : Int) : List ConstraintViolation :=
  voiceList.filterMap (seventhResolutionAt prev_voices curr_voices root_pc)

/-! CounterpointSolver from exercises.py. -/

/-- CounterpointSolver._generate_counterpoint_candidates.  The prev_cp
parameter is accepted but unused by the body, as in the source.  The
final list(set(candidates)) is modelled by dedup: Python set iteration
order is unspecified, and only membership in the candidate list is
meaningful downstream. -/
def generate_counterpoint_candidates (cf_note : Int) (prevCp : Option Int)
    (above is_start is_end : Bool) : List Int :=
  let base := ([3, 4, 5, 6, 8, 10] : List Int).filterMap fun interval =>
    let note := if above then cf_note + interval else cf_note - interval
    if 60 ≤ note ∧ note ≤ 84 then some note else none
  let withOctave := base ++ [if above then cf_note + 12 else cf_note - 12]
  let withEnds :=
    if is_start ∨ is_end then
      (if above then [cf_note, cf_note + 7, cf_note + 12]
       else [cf_note, cf_note - 7, cf_note - 12]) ++ withOctave
    else withOctave
  withEnds.dedup

/-! ErrorCorrector from exercises.py. -/

/-- One entry of the error-dictionary list built by find_errors; the
"voice" key is present only on range errors. -/
structure ErrorRec where
  step : Nat
  voice : Option String
  typ : String
  description : String
deriving DecidableEq, Repr

/-- ErrorCorrector.find_errors: per step, range errors for each present
voice, then voice order, spacing, and (from the second step on)
parallelisms against the previous step. -/
def find_errors (voices : List PVoicing) : List ErrorRec :=
  voices.enum.flatMap fun e =>
    let i := e.1
    let curr := e.2
    (curr.items.filterMap fun ve =>
      (check_voice_range ve.1 ve.2).map fun viol =>
        (⟨i, some ve.1.value, "range", viol.description⟩ : ErrorRec)) ++
    ((check_voice_order curr).toList.map fun viol =>
      (⟨i, none, "voice_crossing", viol.description⟩ : ErrorRec)) ++
    ((check_spacing curr).toList.map fun viol =>
      (⟨i, none, "spacing", viol.description⟩ : ErrorRec)) ++
    (if i > 0 then
      (check_parallels (voices.getD (i - 1) ⟨none, none, none, none⟩) curr).map
        fun viol => (⟨i, none, "parallelism", viol.description⟩ : ErrorRec)
     else [])

/-- The voice-range table re-declared literally inside correct_errors. -/
def correctErrorsRanges : Voice → Int × Int
  | .SOPRANO => (60, 84)
  | .ALTO => (55, 72)
  | .TENOR => (48, 69)
  | .BASS => (40, 60)

/-- Python Voice[name]: lookup of an Enum member by NAME (not by
value), raising KeyError for anything that is not a member name. -/
def voiceByName (name : String) : Option Voice :=
  if name = "SOPRANO" then some .SOPRANO
  else if name = "ALTO" then some .ALTO
  else if name = "TENOR" then some .TENOR
  else if name = "BASS" then some .BASS
  else none

/-- Grouping of errors by step, preserving first-seen step order, as
the errors_by_step dict of correct_errors does. -/
def addToGroups (gs : List (Nat × List ErrorRec)) (e : ErrorRec) :
    List (Nat × List ErrorRec) :=
  match gs with
  | [] => [(e.step, [e])]
  | g :: rest =>
    if g.1 = e.step then (g.1, g.2 ++ [e]) :: rest else g :: addToGroups rest e

/-- errors_by_step of correct_errors. -/
def groupByStep (errors : List ErrorRec) : List (Nat × List ErrorRec) :=
  errors.foldl addToGroups []

/-- The inner loop body of correct_errors acting on the local dict copy
curr_voices: range errors look the voice up by name via Voice[...]
(raising KeyError, since the stored "voice" value is the single-letter
tag, not the member name) and clamp the out-of-range note into the
copy; other error types are skipped. -/
def applyErr (curr : PVoicing) (err : ErrorRec) : Except String PVoicing :=
  if err.typ == "range" then
    match err.voice with
    | none => .error "KeyError: voice"
    | some name =>
      match voiceByName name with
      | none => .error ("KeyError: " ++ name)
      | some v =>
        match curr.get v with
        | none => .error "KeyError: voice not in dict"
        | some note_val =>
          let r := correctErrorsRanges v
          if note_val < r.1 then .ok (curr.set v r.1)
          else if note_val > r.2 then .ok (curr.set v r.2)
          else .ok curr
  else .ok curr

/-- The per-step body of correct_errors: corrected[step] is fetched
(IndexError when out of range), copied, and the step's errors are
applied to the copy; the mutated copy is then dropped on the floor —
it is never written back into the corrected list. -/
def correctStep (voices : List PVoicing) (g : Nat × List ErrorRec) :
    Except String Unit :=
  match voices.get? g.1 with
  | none => .error "IndexError: list index out of range"
  | some curr0 => (g.2.foldlM applyErr curr0).map fun _ => ()

/-- The loop of correct_errors over the step groups. -/
def correctLoop (voices : List PVoicing) :
    List (Nat × List ErrorRec) → Except String (List PVoicing)
  | [] => .ok voices
  | g :: gs =>
    match correctStep voices g with
    | .error e => .error e
    | .ok _ => correctLoop voices gs

/-- ErrorCorrector.correct_errors: on success the returned list is the
shallow copy of the input — the clamped values live only in discarded
per-step dict copies. -/
def correct_errors (voices : List PVoicing) (errors : List ErrorRec) :
    Except String (List PVoicing) :=
  correctLoop voices (groupByStep errors)

/-! Helper lemmas about the embedded definitions. -/

lemma two_le_length_of_mem {α : Type} {x y : α} {l : List α}
    (hx : x ∈ l) (hy : y ∈ l) (hne : x ≠ y) : 2 ≤ l.length := by
  match l with
  | [] => cases hx
  | [z] =>
    simp only [List.mem_singleton] at hx hy
    exact absurd (hx.trans hy.symm) hne
  | _ :: _ :: l2 =>
    simp only [List.length_cons]
    omega

lemma mem_intRange {lo hi x : Int} (h : x ∈ intRange lo hi) :
    lo ≤ x ∧ x ≤ hi := by
  simp only [intRange, List.mem_map, List.mem_range] at h
  rcases h with ⟨k, hk, rfl⟩
  exact ⟨by omega, by omega⟩

lemma mem_generate_candidate_range {v : Voice} {b x : Int} {ct : String}
    (h : x ∈ generate_candidate_notes v b ct) :
    (VOICE_RANGES v).1 ≤ x ∧ x ≤ (VOICE_RANGES v).2 := by
  unfold generate_candidate_notes at h
  exact mem_intRange (List.mem_filter.1 h).1

lemma mem_candidateTriples {b : Int} {ct : String} {s a t : Int} :
    (s, a, t) ∈ candidateTriples b ct ↔
      s ∈ generate_candidate_notes .SOPRANO b ct ∧
        a ∈ generate_candidate_notes .ALTO b ct ∧
          t ∈ generate_candidate_notes .TENOR b ct := by
  unfold candidateTriples
  constructor
  · intro h
    rcases List.mem_flatMap.1 h with ⟨s1, hs1, h1⟩
    rcases List.mem_flatMap.1 h1 with ⟨a1, ha1, h2⟩
    rcases List.mem_map.1 h2 with ⟨t1, ht1, heq⟩
    cases heq
    exact ⟨hs1, ha1, ht1⟩
  · rintro ⟨hs, ha, ht⟩
    exact List.mem_flatMap.2 ⟨s, hs,
      List.mem_flatMap.2 ⟨a, ha, List.mem_map.2 ⟨t, ht, rfl⟩⟩⟩

lemma mem_insertByScore {x y : Solution} {l : List Solution} :
    x ∈ insertByScore y l ↔ x = y ∨ x ∈ l := by
  induction l with
  | nil => simp [insertByScore]
  | cons z zs ih =>
    unfold insertByScore
    by_cases h : y.score ≤ z.score
    · simp [h]
    · simp only [h, if_false, List.mem_cons, ih]
      tauto

lemma mem_sortByScore {x : Solution} {l : List Solution} :
    x ∈ sortByScore l ↔ x ∈ l := by
  induction l with
  | nil => simp [sortByScore]
  | cons z zs ih => simp [sortByScore, mem_insertByScore, ih]

lemma solve_step_subset_pool {bw : Nat} {b : Int} {p : Solution}
    {ps : List Solution} {ct : String} {sol : Solution}
    (h : sol ∈ solve_step bw b (p :: ps) ct) :
    sol ∈ stepPool b (p :: ps) ct := by
  unfold solve_step at h
  exact mem_sortByScore.1 (List.take_subset _ _ h)

lemma check_voice_range_hard {v : Voice} {n : Int} {viol : ConstraintViolation}
    (h : check_voice_range v n = some viol) : viol.severity = "hard" := by
  unfold check_voice_range at h
  split at h
  · cases h; rfl
  · cases h

lemma checkTB_hard {pv : PVoicing} {viol : ConstraintViolation}
    (h : check_voice_order.checkTB pv = some viol) : viol.severity = "hard" := by
  unfold check_voice_order.checkTB at h
  split at h
  · split at h
    · cases h; rfl
    · cases h
  · cases h

lemma checkOrderAT_hard {pv : PVoicing} {viol : ConstraintViolation}
    (h : check_voice_order.checkAT pv = some viol) : viol.severity = "hard" := by
  unfold check_voice_order.checkAT at h
  split at h
  · split at h
    · cases h; rfl
    · exact checkTB_hard h
  · exact checkTB_hard h

lemma check_voice_order_hard {pv : PVoicing} {viol : ConstraintViolation}
    (h : check_voice_order pv = some viol) : viol.severity = "hard" := by
  unfold check_voice_order at h
  split at h
  · split at h
    · cases h; rfl
    · exact checkOrderAT_hard h
  · exact checkOrderAT_hard h

lemma checkSpacingAT_hard {pv : PVoicing} {viol : ConstraintViolation}
    (h : check_spacing.checkAT pv = some viol) : viol.severity = "hard" := by
  unfold check_spacing.checkAT at h
  split at h
  · split at h
    · cases h; rfl
    · cases h
  · cases h

lemma check_spacing_hard {pv : PVoicing} {viol : ConstraintViolation}
    (h : check_spacing pv = some viol) : viol.severity = "hard" := by
  unfold check_spacing at h
  split at h
  · split at h
    · cases h; rfl
    · exact checkSpacingAT_hard h
  · exact checkSpacingAT_hard h

lemma check_all_hard_constraints_hard {v : Voice} {n : Int} {pv : PVoicing}
    {viol : ConstraintViolation} (h : viol ∈ check_all_hard_constraints v n pv) :
    viol.severity = "hard" := by
  unfold check_all_hard_constraints at h
  rcases List.mem_append.1 h with h1 | h2
  · rcases List.mem_append.1 h1 with h3 | h4
    · rcases Option.mem_toList.1 h3 with h5
      exact check_voice_range_hard h5
    · exact check_voice_order_hard (Option.mem_toList.1 h4)
  · exact check_spacing_hard (Option.mem_toList.1 h2)

lemma parallelFifthAt_some {p c : PVoicing} {pr : Voice × Voice}
    {viol : ConstraintViolation} (h : parallelFifthAt p c pr = some viol) :
    viol.severity = "hard" ∧ viol.rule_name = "parallel_fifths" := by
  unfold parallelFifthAt at h
  split at h
  · cases h
  · split at h
    · split at h
      · split at h
        · cases h; exact ⟨rfl, rfl⟩
        · cases h
      · cases h
    · cases h

lemma parallelOctaveAt_some {p c : PVoicing} {pr : Voice × Voice}
    {viol : ConstraintViolation} (h : parallelOctaveAt p c pr = some viol) :
    viol.severity = "hard" ∧ viol.rule_name = "parallel_octaves" := by
  unfold parallelOctaveAt at h
  split at h
  · cases h
  · split at h
    · split at h
      · split at h
        · cases h; exact ⟨rfl, rfl⟩
        · cases h
      · cases h
    · cases h

lemma hiddenAt_some {p c : PVoicing} {pr : Voice × Voice}
    {viol : ConstraintViolation} (h : hiddenAt p c pr = some viol) :
    viol.severity = "hard" ∧ viol.rule_name = "hidden_fifths_octaves" := by
  unfold hiddenAt at h
  split at h
  · cases h
  · split at h
    · split at h
      · split at h
        · cases h; exact ⟨rfl, rfl⟩
        · cases h
      · cases h
    · cases h

lemma check_parallels_hard {p c : PVoicing} {viol : ConstraintViolation}
    (h : viol ∈ check_parallels p c) : viol.severity = "hard" := by
  unfold check_parallels check_parallel_fifths check_parallel_octaves
    check_hidden_fifths_octaves at h
  rcases List.mem_append.1 h with h1 | h2
  · rcases List.mem_append.1 h1 with h3 | h4
    · rcases List.mem_filterMap.1 h3 with ⟨pr, _, hf⟩
      exact (parallelFifthAt_some hf).1
    · rcases List.mem_filterMap.1 h4 with ⟨pr, _, hf⟩
      exact (parallelOctaveAt_some hf).1
  · rcases List.mem_filterMap.1 h2 with ⟨pr, _, hf⟩
    exact (hiddenAt_some hf).1

lemma withinStepViolations_hard {V : Voicing} {viol : ConstraintViolation}
    (h : viol ∈ withinStepViolations V) : viol.severity = "hard" := by
  unfold withinStepViolations at h
  rcases List.mem_append.1 h with h1 | h2
  · rcases List.mem_append.1 h1 with h3 | h4
    · exact check_all_hard_constraints_hard h3
    · exact check_all_hard_constraints_hard h4
  · exact check_all_hard_constraints_hard h2

lemma all_hard_filter_nil {l : List ConstraintViolation}
    (hall : ∀ v ∈ l, v.severity = "hard")
    (h : (l.filter fun v => v.severity == "hard") = []) : l = [] := by
  rcases l with _ | ⟨v, vs⟩
  · rfl
  · exfalso
    have hv : v.severity = "hard" := hall v (List.mem_cons_self v vs)
    have : v ∈ List.filter (fun v => v.severity == "hard") (v :: vs) :=
      List.mem_filter.2 ⟨List.mem_cons_self v vs, by simp [hv]⟩
    rw [h] at this
    cases this

lemma crossStep_eq_nil {prev : List Solution} {V : Voicing}
    (h : ∀ P ∈ prev, check_parallels P.voices.toP V.toP = []) :
    crossStepViolations prev V = [] := by
  induction prev with
  | nil => rfl
  | cons p ps ih =>
    unfold crossStepViolations at *
    simp only [List.flatMap_cons]
    rw [h p (List.mem_cons_self p ps), List.nil_append]
    exact ih fun P hP => h P (List.mem_cons_of_mem p hP)

lemma crossStep_nil_elim {prev : List Solution} {V : Voicing} {P : Solution}
    (h : crossStepViolations prev V = []) (hP : P ∈ prev) :
    check_parallels P.voices.toP V.toP = [] := by
  rw [List.eq_nil_iff_forall_not_mem]
  intro x hx
  have hmem : x ∈ crossStepViolations prev V :=
    List.mem_flatMap.2 ⟨P, hP, hx⟩
  rw [h] at hmem
  cases hmem

lemma mem_stepPool_iff {b : Int} {ct : String} {p : Solution}
    {ps : List Solution} {sol : Solution} :
    sol ∈ stepPool b (p :: ps) ct ↔
      ∃ s a t, (s, a, t) ∈ candidateTriples b ct ∧
        withinStepViolations ⟨s, a, t, b⟩ = [] ∧
        (∀ P ∈ p :: ps,
          check_parallels P.voices.toP (Voicing.toP ⟨s, a, t, b⟩) = []) ∧
        sol = ⟨⟨s, a, t, b⟩,
          total_score (some p.voices.toP) (Voicing.toP ⟨s, a, t, b⟩)
            (b - p.voices.b) (some (midi_to_pitch_class b)) none, []⟩ := by
  constructor
  · intro h
    rcases List.mem_filterMap.1 h with ⟨c, hc, hf⟩
    rcases c with ⟨s, a, t⟩
    refine ⟨s, a, t, hc, ?_⟩
    simp only [stepPool] at hf
    split at hf
    case isTrue hcond =>
      have hall : ∀ v ∈ withinStepViolations ⟨s, a, t, b⟩ ++
          crossStepViolations (p :: ps) ⟨s, a, t, b⟩, v.severity = "hard" := by
        intro v hv
        rcases List.mem_append.1 hv with h1 | h2
        · exact withinStepViolations_hard h1
        · rcases List.mem_flatMap.1 h2 with ⟨P, _, hP2⟩
          exact check_parallels_hard hP2
      have hnil := all_hard_filter_nil hall hcond
      rcases List.append_eq_nil.1 hnil with ⟨hwithin, hcross⟩
      refine ⟨hwithin, fun P hP => crossStep_nil_elim hcross hP, ?_⟩
      cases hf
      simp [hnil]
    case isFalse => cases hf
  · rintro ⟨s, a, t, hc, hwithin, hpar, rfl⟩
    apply List.mem_filterMap.2
    refine ⟨(s, a, t), hc, ?_⟩
    simp only [stepPool]
    have hcrossnil : crossStepViolations (p :: ps) ⟨s, a, t, b⟩ = [] :=
      crossStep_eq_nil hpar
    rw [hwithin, hcrossnil]
    simp

lemma mem_firstStepPool_elim {b : Int} {ct : String} {sol : Solution}
    (h : sol ∈ firstStepPool b ct) :
    ∃ s a t, (s, a, t) ∈ candidateTriples b ct ∧ sol.voices = ⟨s, a, t, b⟩ := by
  rcases List.mem_filterMap.1 h with ⟨c, hc, hf⟩
  rcases c with ⟨s, a, t⟩
  refine ⟨s, a, t, hc, ?_⟩
  simp only [firstStepPool] at hf
  split at hf
  · cases hf; rfl
  · cases hf

/-- Any solution emitted by solve_step has its upper voices inside
their range tables and carries the step's bass note. -/
lemma solve_step_voices {bw : Nat} {b : Int} {prev : List Solution}
    {ct : String} {sol : Solution} (h : sol ∈ solve_step bw b prev ct) :
    (60 ≤ sol.voices.s ∧ sol.voices.s ≤ 84) ∧
      (55 ≤ sol.voices.a ∧ sol.voices.a ≤ 72) ∧
      (48 ≤ sol.voices.t ∧ sol.voices.t ≤ 69) ∧ sol.voices.b = b := by
  have hv : ∃ s a t, (s, a, t) ∈ candidateTriples b ct ∧ sol.voices = ⟨s, a, t, b⟩ := by
    rcases prev with _ | ⟨p, ps⟩
    · unfold solve_step at h
      exact mem_firstStepPool_elim (mem_sortByScore.1 (List.take_subset _ _ h))
    · rcases mem_stepPool_iff.1 (solve_step_subset_pool h) with
        ⟨s, a, t, hc, _, _, rfl⟩
      exact ⟨s, a, t, hc, rfl⟩
  rcases hv with ⟨s, a, t, hc, hveq⟩
  rcases mem_candidateTriples.1 hc with ⟨hs, ha, ht⟩
  have rs := mem_generate_candidate_range hs
  have ra := mem_generate_candidate_range ha
  have rt := mem_generate_candidate_range ht
  rw [hveq]
  simp only [VOICE_RANGES] at rs ra rt
  exact ⟨⟨rs.1, rs.2⟩, ⟨ra.1, ra.2⟩, ⟨rt.1, rt.2⟩, rfl⟩

lemma except_map_ok {α β : Type} {f : α → β} {e : Except String α} {y : β}
    (h : e.map f = .ok y) : ∃ x, e = .ok x ∧ y = f x := by
  cases e with
  | ok x => exact ⟨x, rfl, by cases h; rfl⟩
  | error msg => cases h

/-- The upper voices of a voicing all lie inside their range tables. -/
def uppersInRange (V : Voicing) : Prop :=
  60 ≤ V.s ∧ V.s ≤ 84 ∧ 55 ≤ V.a ∧ V.a ≤ 72 ∧ 48 ≤ V.t ∧ V.t ≤ 69

lemma solve_step_uppers {bw : Nat} {b : Int} {prev : List Solution}
    {ct : String} {sol : Solution} (h : sol ∈ solve_step bw b prev ct) :
    uppersInRange sol.voices ∧ sol.voices.b = b := by
  rcases solve_step_voices h with ⟨hs, ha, ht, hb⟩
  exact ⟨⟨hs.1, hs.2, ha.1, ha.2, ht.1, ht.2⟩, hb⟩

/-- Every step emitted by a successful run of the solve loop keeps its
upper voices inside their ranges and carries the matching input bass
note, provided the incoming beam does (the bass itself is never
range-checked). -/
lemma solveLoop_uppers {bw : Nat} {cts : List String} :
    ∀ (bass : List Int) (i : Nat) (prev : List Solution)
      (res : List (Solution × Bool)),
      (∀ q ∈ prev, uppersInRange q.voices) →
      solveLoop bw cts i bass prev = .ok res →
      res.length = bass.length ∧
        ∀ j (hj : j < res.length) (hjb : j < bass.length),
          uppersInRange (res.get ⟨j, hj⟩).1.voices ∧
            (res.get ⟨j, hj⟩).1.voices.b = bass.get ⟨j, hjb⟩ := by
  intro bass
  induction bass with
  | nil =>
    intro i prev res _ hok
    cases hok
    exact ⟨rfl, fun j hj hjb => absurd hj (by simp)⟩
  | cons b rest ih =>
    intro i prev res hprev hok
    simp only [solveLoop] at hok
    generalize hsols : solve_step bw b prev (cts.getD i "major") = sols at hok
    rcases sols with _ | ⟨best, more⟩
    · rcases prev with _ | ⟨p, ps⟩
      · cases hok
      · rcases except_map_ok hok with ⟨tl, hrec, rfl⟩
        have hpvoices : uppersInRange p.voices :=
          hprev p (List.mem_cons_self p ps)
        have hsent : uppersInRange (p.voices.setBass b) := by
          rcases hpvoices with ⟨h1, h2, h3, h4, h5, h6⟩
          exact ⟨h1, h2, h3, h4, h5, h6⟩
        rcases ih (i + 1) _ tl (by
          intro q hq
          rcases List.mem_singleton.1 hq with rfl
          exact hsent) hrec with ⟨hlen, hall⟩
        constructor
        · simp [hlen]
        · intro j hj hjb
          match j with
          | 0 => exact ⟨hsent, rfl⟩
          | j + 1 =>
            simp only [List.get_cons_succ]
            exact hall j (by simpa using hj) (by simpa using hjb)
    · rcases except_map_ok hok with ⟨tl, hrec, rfl⟩
      have hbeam : ∀ q ∈ solve_step bw b prev (cts.getD i "major"),
          uppersInRange q.voices := fun q hq => (solve_step_uppers hq).1
      rcases ih (i + 1) _ tl (by rw [hsols] at hbeam; exact hbeam) hrec with
        ⟨hlen, hall⟩
      have hbest : best ∈ solve_step bw b prev (cts.getD i "major") := by
        rw [hsols]; exact List.mem_cons_self best more
      rcases solve_step_uppers hbest with ⟨hbu, hbb⟩
      constructor
      · simp [hlen]
      · intro j hj hjb
        match j with
        | 0 => exact ⟨hbu, hbb⟩
        | j + 1 =>
          simp only [List.get_cons_succ]
          exact hall j (by simpa using hj) (by simpa using hjb)

/-- Any emitted step whose fallback flag is false is a member of a
solve_step run whose predecessor beam is headed by the previously
emitted solution. -/
lemma solveLoop_consecutive {bw : Nat} {cts : List String} :
    ∀ (bass : List Int) (i : Nat) (prev : List Solution)
      (res : List (Solution × Bool)),
      solveLoop bw cts i bass prev = .ok res →
      ∀ j (hj1 : j + 1 < res.length) (hj : j < res.length),
        (res.get ⟨j + 1, hj1⟩).2 = false →
        ∃ b2 ct2 tail,
          (res.get ⟨j + 1, hj1⟩).1 ∈
            solve_step bw b2 ((res.get ⟨j, hj⟩).1 :: tail) ct2 := by
  intro bass
  induction bass with
  | nil =>
    intro i prev res hok
    cases hok
    intro j hj1 hj hflag
    exact absurd hj1 (by simp)
  | cons b rest ih =>
    intro i prev res hok
    -- First expose the head of res and the recursive call.
    simp only [solveLoop] at hok
    have hshape : ∃ (x : Solution) (flag : Bool) (tl : List (Solution × Bool))
        (prev2 : List Solution) (rest2 : List Solution),
        res = (x, flag) :: tl ∧ prev2 = x :: rest2 ∧
          solveLoop bw cts (i + 1) rest prev2 = .ok tl := by
      generalize solve_step bw b prev (cts.getD i "major") = sols at hok
      rcases sols with _ | ⟨best, more⟩
      · rcases prev with _ | ⟨p, ps⟩
        · cases hok
        · rcases except_map_ok hok with ⟨tl, hrec, rfl⟩
          exact ⟨_, _, tl, _, [], rfl, rfl, hrec⟩
      · rcases except_map_ok hok with ⟨tl, hrec, rfl⟩
        exact ⟨best, false, tl, best :: more, more, rfl, rfl, hrec⟩
    rcases hshape with ⟨x, flag, tl, prev2, rest2, rfl, hprev2, hrec⟩
    intro j hj1 hj hflag
    match j with
    | 0 =>
      -- The element at index 1 is the head of tl, produced by the first
      -- step of the recursive call with beam prev2 = x :: rest2.
      rcases rest with _ | ⟨b2, rest3⟩
      · cases hrec
        exact absurd hj1 (by simp)
      · simp only [solveLoop] at hrec
        generalize hsols2 : solve_step bw b2 prev2 (cts.getD (i + 1) "major") =
          sols2 at hrec
        rcases sols2 with _ | ⟨best2, more2⟩
        · rcases prev2 with _ | ⟨p2, ps2⟩
          · cases hrec
          · rcases except_map_ok hrec with ⟨tl2, _, rfl⟩
            simp only [List.get_cons_succ] at hflag
            cases hflag
        · rcases except_map_ok hrec with ⟨tl2, hrec2, rfl⟩
          refine ⟨b2, cts.getD (i + 1) "major", rest2, ?_⟩
          show best2 ∈ solve_step bw b2 (x :: rest2) (cts.getD (i + 1) "major")
          rw [← hprev2, hsols2]
          exact List.mem_cons_self best2 more2
    | j + 1 =>
      have := ih (i + 1) prev2 tl hrec j (by simpa using hj1) (by simpa using hj)
        (by simpa using hflag)
      simpa using this

lemma toP_get (V : Voicing) (u : Voice) : V.toP.get u = some (V.get u) := by
  cases u <;> rfl

lemma mem_voicePairs (v1 v2 : Voice) : (v1, v2) ∈ voicePairs := by
  cases v1 <;> cases v2 <;> decide

/-- When check_parallel_fifths returns no violation, no ordered pair of
distinct voices forms a perfect fifth at both steps while moving in the
same non-zero direction. -/
lemma no_parallel_fifth_of_nil {p c : Voicing}
    (h : check_parallel_fifths p.toP c.toP = []) (v1 v2 : Voice) (hne : v1 ≠ v2) :
    ¬(is_perfect_fifth (p.get v1) (p.get v2) = true ∧
      is_perfect_fifth (c.get v1) (c.get v2) = true ∧
      c.get v1 - p.get v1 ≠ 0 ∧ c.get v2 - p.get v2 ≠ 0 ∧
      (c.get v1 - p.get v1) * (c.get v2 - p.get v2) > 0) := by
  rintro ⟨h5p, h5c, hm1, hm2, hdir⟩
  have hAt : parallelFifthAt p.toP c.toP (v1, v2) = some
      ⟨"parallel_fifths",
        "Parallel fifths between " ++ v1.value ++ " and " ++ v2.value, "hard"⟩ := by
    unfold parallelFifthAt
    rw [if_neg hne]
    simp only [toP_get]
    rw [if_pos ⟨h5p, h5c⟩, if_pos ⟨hm1, hm2, hdir⟩]
  have hmem : _ ∈ check_parallel_fifths p.toP c.toP :=
    List.mem_filterMap.2 ⟨(v1, v2), mem_voicePairs v1 v2, hAt⟩
  rw [h] at hmem
  cases hmem

/-- When check_parallel_octaves returns no violation, no ordered pair of
distinct voices forms interval-class 0 at both steps while moving in the
same non-zero direction. -/
lemma no_parallel_octave_of_nil {p c : Voicing}
    (h : check_parallel_octaves p.toP c.toP = []) (v1 v2 : Voice) (hne : v1 ≠ v2) :
    ¬(is_perfect_octave (p.get v1) (p.get v2) = true ∧
      is_perfect_octave (c.get v1) (c.get v2) = true ∧
      c.get v1 - p.get v1 ≠ 0 ∧ c.get v2 - p.get v2 ≠ 0 ∧
      (c.get v1 - p.get v1) * (c.get v2 - p.get v2) > 0) := by
  rintro ⟨h0p, h0c, hm1, hm2, hdir⟩
  have hAt : parallelOctaveAt p.toP c.toP (v1, v2) = some
      ⟨"parallel_octaves",
        "Parallel octaves between " ++ v1.value ++ " and " ++ v2.value, "hard"⟩ := by
    unfold parallelOctaveAt
    rw [if_neg hne]
    simp only [toP_get]
    rw [if_pos ⟨h0p, h0c⟩, if_pos ⟨hm1, hm2, hdir⟩]
  have hmem : _ ∈ check_parallel_octaves p.toP c.toP :=
    List.mem_filterMap.2 ⟨(v1, v2), mem_voicePairs v1 v2, hAt⟩
  rw [h] at hmem
  cases hmem

/-! Claim theorems. -/

/-- Claim C1, counterexample: the claim asserts that every voice of
every emitted voicing lies in its range table, including the bass taken
from the input.  Solving the one-note bass line [39] succeeds without
fallback and emits a voicing whose bass is 39, below the bass range low
bound 40; the checker's own range rule flags that pitch as a hard
violation. -/
theorem C1_counterexample :
    (solveFull 1 [39] []).map (List.map fun e => (e.1.voices.b, e.2)) =
        .ok [(39, false)] ∧
      ¬((VOICE_RANGES .BASS).1 ≤ 39) ∧
      check_voice_range .BASS 39 ≠ none := by
  refine ⟨by with_unfolding_all decide, by decide, by decide⟩

/-- Claim C1, amended: in every successful solve, every emitted voicing
has its soprano in [60, 84], alto in [55, 72] and tenor in [48, 69],
and its bass voice equals the input bass note of its step; the bass is
never range-checked, so it lies in the bass range only when the input
note does. -/
theorem C1_range_invariant (bw : Nat) (bass : List Int) (cts : List String)
    (res : List (Solution × Bool)) (h : solveFull bw bass cts = .ok res) :
    res.length = bass.length ∧
      ∀ j (hj : j < res.length) (hjb : j < bass.length),
        (60 ≤ (res.get ⟨j, hj⟩).1.voices.s ∧ (res.get ⟨j, hj⟩).1.voices.s ≤ 84) ∧
        (55 ≤ (res.get ⟨j, hj⟩).1.voices.a ∧ (res.get ⟨j, hj⟩).1.voices.a ≤ 72) ∧
        (48 ≤ (res.get ⟨j, hj⟩).1.voices.t ∧ (res.get ⟨j, hj⟩).1.voices.t ≤ 69) ∧
        (res.get ⟨j, hj⟩).1.voices.b = bass.get ⟨j, hjb⟩ := by
  rcases solveLoop_uppers bass 0 [] res (by intro q hq; cases hq) h with ⟨hlen, hall⟩
  refine ⟨hlen, fun j hj hjb => ?_⟩
  rcases hall j hj hjb with ⟨⟨u1, u2, u3, u4, u5, u6⟩, hb⟩
  exact ⟨⟨u1, u2⟩, ⟨u3, u4⟩, ⟨u5, u6⟩, hb⟩

/-- Concrete run used by witnesses: solving the bass line [48, 53] with
beam width 1. -/
def runBass4853 : List (Solution × Bool) :=
  [(⟨⟨84, 72, 60, 48⟩, -1, []⟩, false), (⟨⟨84, 72, 60, 53⟩, 5/9, []⟩, false)]

/-- Claim C1, witness: the amended theorem applied to the concrete
solve of [48, 53] with beam width 1. -/
theorem C1_range_invariant_witness :
    runBass4853.length = [(48 : Int), 53].length ∧
      ∀ j (hj : j < runBass4853.length) (hjb : j < [(48 : Int), 53].length),
        (60 ≤ (runBass4853.get ⟨j, hj⟩).1.voices.s ∧
          (runBass4853.get ⟨j, hj⟩).1.voices.s ≤ 84) ∧
        (55 ≤ (runBass4853.get ⟨j, hj⟩).1.voices.a ∧
          (runBass4853.get ⟨j, hj⟩).1.voices.a ≤ 72) ∧
        (48 ≤ (runBass4853.get ⟨j, hj⟩).1.voices.t ∧
          (runBass4853.get ⟨j, hj⟩).1.voices.t ≤ 69) ∧
        (runBass4853.get ⟨j, hj⟩).1.voices.b = [(48 : Int), 53].get ⟨j, hjb⟩ :=
  C1_range_invariant 1 [48, 53] [] runBass4853 (by with_unfolding_all decide)

/-- Claim C3: in every successful solve, for any two consecutive
emitted steps that are both non-fallback and any ordered pair of
distinct voices, the two voices never form interval-class 7 at both
steps while moving in the same non-zero direction, and likewise never
interval-class 0: the solver's output is free of parallel perfect
fifths and octaves. -/
theorem C3_no_parallel_perfects (bw : Nat) (bass : List Int) (cts : List String)
    (res : List (Solution × Bool)) (h : solveFull bw bass cts = .ok res)
    (j : Nat) (hj1 : j + 1 < res.length) (hj : j < res.length)
    (hf0 : (res.get ⟨j, hj⟩).2 = false) (hf1 : (res.get ⟨j + 1, hj1⟩).2 = false)
    (v1 v2 : Voice) (hne : v1 ≠ v2) :
    ¬(is_perfect_fifth ((res.get ⟨j, hj⟩).1.voices.get v1)
          ((res.get ⟨j, hj⟩).1.voices.get v2) = true ∧
      is_perfect_fifth ((res.get ⟨j + 1, hj1⟩).1.voices.get v1)
          ((res.get ⟨j + 1, hj1⟩).1.voices.get v2) = true ∧
      (res.get ⟨j + 1, hj1⟩).1.voices.get v1 - (res.get ⟨j, hj⟩).1.voices.get v1 ≠ 0 ∧
      (res.get ⟨j + 1, hj1⟩).1.voices.get v2 - (res.get ⟨j, hj⟩).1.voices.get v2 ≠ 0 ∧
      ((res.get ⟨j + 1, hj1⟩).1.voices.get v1 - (res.get ⟨j, hj⟩).1.voices.get v1) *
        ((res.get ⟨j + 1, hj1⟩).1.voices.get v2 - (res.get ⟨j, hj⟩).1.voices.get v2) > 0) ∧
    ¬(is_perfect_octave ((res.get ⟨j, hj⟩).1.voices.get v1)
          ((res.get ⟨j, hj⟩).1.voices.get v2) = true ∧
      is_perfect_octave ((res.get ⟨j + 1, hj1⟩).1.voices.get v1)
          ((res.get ⟨j + 1, hj1⟩).1.voices.get v2) = true ∧
      (res.get ⟨j + 1, hj1⟩).1.voices.get v1 - (res.get ⟨j, hj⟩).1.voices.get v1 ≠ 0 ∧
      (res.get ⟨j + 1, hj1⟩).1.voices.get v2 - (res.get ⟨j, hj⟩).1.voices.get v2 ≠ 0 ∧
      ((res.get ⟨j + 1, hj1⟩).1.voices.get v1 - (res.get ⟨j, hj⟩).1.voices.get v1) *
        ((res.get ⟨j + 1, hj1⟩).1.voices.get v2 - (res.get ⟨j, hj⟩).1.voices.get v2) > 0) := by
  obtain ⟨b2, ct2, tail, hmem⟩ :=
    solveLoop_consecutive bass 0 [] res h j hj1 hj hf1
  have hpool := solve_step_subset_pool hmem
  rcases mem_stepPool_iff.1 hpool with ⟨s, a, t, _, _, hpar, heq⟩
  have hv : (res.get ⟨j + 1, hj1⟩).1.voices = ⟨s, a, t, b2⟩ := by rw [heq]
  have hparhead :
      check_parallels (res.get ⟨j, hj⟩).1.voices.toP
        (Voicing.toP ⟨s, a, t, b2⟩) = [] :=
    hpar _ (List.mem_cons_self _ _)
  rw [← hv] at hparhead
  unfold check_parallels at hparhead
  rcases List.append_eq_nil.1 hparhead with ⟨h58, hhid⟩
  rcases List.append_eq_nil.1 h58 with ⟨h5, h8⟩
  exact ⟨no_parallel_fifth_of_nil h5 v1 v2 hne,
    no_parallel_octave_of_nil h8 v1 v2 hne⟩

/-- Predecessor solutions used in the C2 counterexample: P2a is the
first (best) beam entry, P2b a second beam entry. -/
def P2a : Solution := ⟨⟨64, 60, 55, 48⟩, 0, []⟩

/-- Second predecessor of the C2 counterexample; the candidate forms
parallel octaves (alto against bass) with it. -/
def P2b : Solution := ⟨⟨62, 58, 53, 46⟩, 0, []⟩

/-- Claim C2, counterexample: the claim asserts a candidate is retained
when it passes all cross-step hard rules paired with SOME predecessor.
The candidate (64, 60, 55) over bass 48 is enumerated, passes every
per-voicing hard rule and passes all cross-step rules paired with the
first predecessor P2a, yet it is absent from the candidate pool (and
from the returned beam) because it fails the parallelism checks against
the other beam entry P2b: the code demands passing against EVERY
predecessor. -/
theorem C2_counterexample :
    ((64, 60, 55) : Int × Int × Int) ∈ candidateTriples 48 "major" ∧
      withinStepViolations ⟨64, 60, 55, 48⟩ = [] ∧
      check_parallels P2a.voices.toP (Voicing.toP ⟨64, 60, 55, 48⟩) = [] ∧
      check_parallels P2b.voices.toP (Voicing.toP ⟨64, 60, 55, 48⟩) ≠ [] ∧
      (⟨64, 60, 55, 48⟩ : Voicing) ∉
        (stepPool 48 [P2a, P2b] "major").map (fun q => q.voices) ∧
      (⟨64, 60, 55, 48⟩ : Voicing) ∉
        (solve_step 10 48 [P2a, P2b] "major").map (fun q => q.voices) := by
  with_unfolding_all decide

/-- Claim C2, amended: with a non-empty predecessor beam, solve_step
returns a prefix of the score-sorted candidate pool, and a candidate
solution is in that pool exactly when its triple is enumerated, it
passes the per-voicing hard rules, and the pair (P, V) passes all
cross-step hard rules for EVERY predecessor P in the beam; its score is
always computed against the first (best) predecessor's voicing, whose
bass also supplies the bass-motion term, and its stored violation list
is empty.  No per-predecessor pairing or lowest-scoring-pairing
selection takes place. -/
theorem C2_retention (bw : Nat) (b : Int) (ct : String) (p : Solution)
    (ps : List Solution) (sol : Solution) :
    (sol ∈ solve_step bw b (p :: ps) ct → sol ∈ stepPool b (p :: ps) ct) ∧
      (sol ∈ stepPool b (p :: ps) ct ↔
        ∃ s a t, (s, a, t) ∈ candidateTriples b ct ∧
          withinStepViolations ⟨s, a, t, b⟩ = [] ∧
          (∀ P ∈ p :: ps,
            check_parallels P.voices.toP (Voicing.toP ⟨s, a, t, b⟩) = []) ∧
          sol = ⟨⟨s, a, t, b⟩,
            total_score (some p.voices.toP) (Voicing.toP ⟨s, a, t, b⟩)
              (b - p.voices.b) (some (midi_to_pitch_class b)) none, []⟩) :=
  ⟨fun h => solve_step_subset_pool h, mem_stepPool_iff⟩

/-- Predecessor used in the C4 instance: its tenor (58, pitch class 10
over the root pitch class 0) holds the chordal seventh of C dominant 7. -/
def P7sol : Solution := ⟨⟨64, 60, 58, 48⟩, 0, []⟩

/-- Claim C2, witness: the retention theorem applied to the concrete
head of solve_step over bass 48 with the singleton beam [P7sol] at beam
width 1, discharging the membership hypothesis by evaluation. -/
theorem C2_retention_witness :
    (⟨⟨64, 60, 58, 48⟩,
        total_score (some P7sol.voices.toP) (Voicing.toP ⟨64, 60, 58, 48⟩)
          (48 - P7sol.voices.b) (some (midi_to_pitch_class 48)) none,
        []⟩ : Solution) ∈ stepPool 48 [P7sol] "dominant7" :=
  (C2_retention 1 48 "dominant7" P7sol []
      ⟨⟨64, 60, 58, 48⟩,
        total_score (some P7sol.voices.toP) (Voicing.toP ⟨64, 60, 58, 48⟩)
          (48 - P7sol.voices.b) (some (midi_to_pitch_class 48)) none, []⟩).1
    (by with_unfolding_all decide)

/-- Claim C4, counterexample: the claim asserts that the cross-step
hard rules include seventh resolution, so a candidate whose seventh
does not descend is discarded.  Over bass 48 with chord dominant7 and a
predecessor whose tenor holds the chordal seventh 58, the candidate in
which the tenor STAYS on 58 (motion 0, flagged by the repository's own
check_seventh_resolution) is not only retained but emitted first by
solve_step at the default beam width 10. -/
theorem C4_counterexample :
    is_seventh (midi_to_pitch_class 58) (midi_to_pitch_class 48) = true ∧
      check_seventh_resolution P7sol.voices.toP
        (Voicing.toP ⟨64, 60, 58, 48⟩) (midi_to_pitch_class 48) ≠ [] ∧
      ((solve_step 10 48 [P7sol] "dominant7").map (fun q => q.voices)).head? =
        some ⟨64, 60, 58, 48⟩ := by
  with_unfolding_all decide

/-- Claim C4, amended: the cross-step hard rules evaluated by
solve_step are only the parallelism checks (parallel fifths, parallel
octaves, hidden fifths/octaves); the seventh-resolution rule exists in
DissonanceResolver but is never consulted, so a candidate in which a
voice held a chordal seventh and fails to descend by 1 or 2 semitones
is still retained whenever it passes the parallelism checks. -/
theorem C4_seventh_not_enforced (b : Int) (ct : String) (p : Solution)
    (ps : List Solution) (s a t : Int)
    (hc : (s, a, t) ∈ candidateTriples b ct)
    (hwithin : withinStepViolations ⟨s, a, t, b⟩ = [])
    (hpar : ∀ P ∈ p :: ps,
      check_parallels P.voices.toP (Voicing.toP ⟨s, a, t, b⟩) = [])
    (hseventh : check_seventh_resolution p.voices.toP
      (Voicing.toP ⟨s, a, t, b⟩) (midi_to_pitch_class b) ≠ []) :
    (⟨s, a, t, b⟩ : Voicing) ∈
      (stepPool b (p :: ps) ct).map (fun q => q.voices) := by
  refine List.mem_map.2 ⟨⟨⟨s, a, t, b⟩,
    total_score (some p.voices.toP) (Voicing.toP ⟨s, a, t, b⟩)
      (b - p.voices.b) (some (midi_to_pitch_class b)) none, []⟩, ?_, rfl⟩
  exact mem_stepPool_iff.2 ⟨s, a, t, hc, hwithin, hpar, rfl⟩

/-- Claim C4, witness: the amended theorem applied to the concrete
unresolved-seventh candidate over bass 48 with chord dominant7. -/
theorem C4_seventh_not_enforced_witness :
    (⟨64, 60, 58, 48⟩ : Voicing) ∈
      (stepPool 48 [P7sol] "dominant7").map (fun q => q.voices) :=
  C4_seventh_not_enforced 48 "dominant7" P7sol [] 64 60 58
    (by with_unfolding_all decide) (by with_unfolding_all decide)
    (by with_unfolding_all decide) (by with_unfolding_all decide)

/-- Claim C5, counterexample: the claim asserts the fallback sentinel
carries a visible "fallback" indicator in its diagnostics.  Solving
[60, 100] forces the fallback at the second step: the sentinel clones
the best predecessor voicing with its bass overwritten to 100 and has
score 100.0, but its violation list — the Solution's only diagnostics
field — is empty, and the value returned by solve is the bare voicing
list, so no fallback indicator is emitted anywhere. -/
theorem C5_counterexample :
    solve 1 [60, 100] [] =
        .ok [⟨60, 60, 60, 60⟩, ⟨60, 60, 60, 100⟩] ∧
      solveFull 1 [60, 100] [] =
        .ok [(⟨⟨60, 60, 60, 60⟩, -1, []⟩, false),
          (⟨⟨60, 60, 60, 100⟩, 100, []⟩, true)] := by
  with_unfolding_all decide

/-- Claim C5, amended: when solve_step returns no candidate at a step
with a non-empty predecessor beam, the solver emits a sentinel Solution
that clones the best predecessor's voicing with its bass overwritten to
the new bass note, has score exactly 100.0 and an EMPTY violation list
(no explicit fallback indicator in diagnostics), replaces the beam by
that singleton and continues; when it happens at a step with an empty
beam (the first step), the whole solve fails with an error naming the
step index. -/
theorem C5_fallback_behavior (bw : Nat) (cts : List String) (i : Nat)
    (b : Int) (rest : List Int) :
    (∀ (p : Solution) (ps : List Solution),
      solve_step bw b (p :: ps) (cts.getD i "major") = [] →
        solveLoop bw cts i (b :: rest) (p :: ps) =
          (solveLoop bw cts (i + 1) rest [⟨p.voices.setBass b, 100, []⟩]).map
            (fun tl => (⟨p.voices.setBass b, 100, []⟩, true) :: tl)) ∧
      (solve_step bw b [] (cts.getD i "major") = [] →
        solveLoop bw cts i (b :: rest) [] =
          .error ("No valid solution found for step " ++ toString i)) := by
  constructor
  · intro p ps hempty
    simp only [solveLoop, hempty]
  · intro hempty
    simp only [solveLoop, hempty]

/-- Claim C5, witness: the amended theorem applied to the fallback step
of the [60, 100] run (second conjunct: an empty first step over bass
100 makes the whole solve fail). -/
theorem C5_fallback_behavior_witness :
    solveLoop 1 [] 1 [100] [⟨⟨60, 60, 60, 60⟩, -1, []⟩] =
        (solveLoop 1 [] 2 []
            [⟨Voicing.setBass ⟨60, 60, 60, 60⟩ 100, 100, []⟩]).map
          (fun tl => (⟨Voicing.setBass ⟨60, 60, 60, 60⟩ 100, 100, []⟩, true) :: tl) ∧
      solveLoop 1 [] 0 [100] [] =
        .error ("No valid solution found for step " ++ toString 0) :=
  ⟨(C5_fallback_behavior 1 [] 1 100 []).1 ⟨⟨60, 60, 60, 60⟩, -1, []⟩ []
      (by with_unfolding_all decide),
    (C5_fallback_behavior 1 [] 0 100 []).2 (by with_unfolding_all decide)⟩

/-! Spec-side scoring sum for claim C6, written from the spec's factor
table (specScore names the claimed tabulated sum, to be compared with
the source-derived total_score). -/

/-- Per-upper-voice motion factor of the spec table: 0.0 for staying,
1.0 for at most 2 semitones, 3.0 for 3-7, 10.0 for more than 7. -/
def specMotionFactor (d : Int) : ℚ :=
  if d = 0 then 0
  else if |d| ≤ 2 then 1
  else if |d| ≤ 7 then 3
  else 10

/-- Per-upper-voice bass-relation factor of the spec table: -2.0 for
contrary motion to the bass, +2.0 for similar motion, 0 when either
motion is zero. -/
def specBassMotionFactor (bm vm : Int) : ℚ :=
  if bm = 0 ∨ vm = 0 then 0
  else if bm * vm < 0 then -2
  else 2

/-- Sum of the spec table's motion factors for one upper voice. -/
def specUpperVoiceTerm (p curr : Voicing) (bm : Int) (v : Voice) : ℚ :=
  specMotionFactor (curr.get v - p.get v) +
    specBassMotionFactor bm (curr.get v - p.get v)

/-- Root-doubling factor of the spec table: -1.0 when the root pitch
class appears at least twice among the four voices, +5.0 when absent. -/
def specRootTerm (curr : Voicing) (root : Int) : ℚ :=
  let cnt := ([curr.s, curr.a, curr.t, curr.b].filter fun n => n % 12 == root).length
  if 2 ≤ cnt then -1 else if cnt = 0 then 5 else 0

/-- Leading-tone factor of the spec table: +10.0 when the leading-tone
pitch class appears at least twice. -/
def specLtTerm (curr : Voicing) (lt : Int) : ℚ :=
  let cnt := ([curr.s, curr.a, curr.t, curr.b].filter fun n => n % 12 == lt).length
  if 2 ≤ cnt then 10 else 0

/-- Spacing factor of the spec table: 0.1 times the variance of the
three adjacent-voice gaps. -/
def specSpacingTerm (curr : Voicing) : ℚ :=
  let g1 : ℚ := Rat.ofInt |curr.s - curr.a|
  let g2 : ℚ := Rat.ofInt |curr.a - curr.t|
  let g3 : ℚ := Rat.ofInt |curr.t - curr.b|
  let avg := (g1 + g2 + g3) / 3
  (1 / 10) * (((g1 - avg) ^ 2 + (g2 - avg) ^ 2 + (g3 - avg) ^ 2) / 3)

/-- The tabulated sum claimed by the spec for a step score. -/
def specScore (prev : Option Voicing) (curr : Voicing) (bm : Int)
    (root lt : Option Int) : ℚ :=
  (match prev with
    | some p => specUpperVoiceTerm p curr bm .SOPRANO +
        specUpperVoiceTerm p curr bm .ALTO + specUpperVoiceTerm p curr bm .TENOR
    | none => 0) +
  (match root with
    | some r => specRootTerm curr r
    | none => 0) +
  (match lt with
    | some l => specLtTerm curr l
    | none => 0) +
  specSpacingTerm curr

lemma pc_count_eq (curr : Voicing) (r : Int) :
    ((Voicing.toP curr).items.filter fun e => midi_to_pitch_class e.2 == r).length =
      ([curr.s, curr.a, curr.t, curr.b].filter fun n => n % 12 == r).length := by
  simp only [PVoicing.items, Voicing.toP, midi_to_pitch_class, List.filter]
  cases h1 : (curr.s % 12 == r) <;> cases h2 : (curr.a % 12 == r) <;>
    cases h3 : (curr.t % 12 == r) <;> cases h4 : (curr.b % 12 == r) <;>
    simp [h1, h2, h3, h4]

lemma score_doubling_eq (curr : Voicing) (r : Int) :
    score_doubling (Voicing.toP curr) r = specRootTerm curr r := by
  simp only [score_doubling, specRootTerm, pc_count_eq]

lemma score_lt_eq (curr : Voicing) (l : Int) :
    score_leading_tone_doubling (Voicing.toP curr) l = specLtTerm curr l := by
  simp only [score_leading_tone_doubling, specLtTerm, pc_count_eq]

lemma score_spacing_eq (curr : Voicing) :
    score_chord_spacing (Voicing.toP curr) = specSpacingTerm curr := by
  simp only [score_chord_spacing, specSpacingTerm, Voicing.toP,
    get_interval_semitones]
  rw [abs_sub_comm curr.a curr.s, abs_sub_comm curr.t curr.a,
    abs_sub_comm curr.b curr.t]
  ring

lemma score_voice_motion_eq (pv c : Int) :
    score_voice_motion (some pv) c = specMotionFactor (c - pv) := by
  simp only [score_voice_motion, specMotionFactor]
  by_cases h0 : c - pv = 0
  · simp [h0, abs_eq_zero.2 h0]
  · rw [if_neg (fun habs => h0 (abs_eq_zero.1 habs)), if_neg h0]

lemma voiceTerm_eq (p curr : Voicing) (bm : Int) (v : Voice)
    (hp : p.get v ≠ 0) (hc : curr.get v ≠ 0) :
    totalScoreVoiceTerm (some (Voicing.toP p)) (Voicing.toP curr) bm v =
      specUpperVoiceTerm p curr bm v := by
  simp only [totalScoreVoiceTerm, toP_get, specUpperVoiceTerm]
  rw [if_neg hc, if_neg hp, score_voice_motion_eq]
  rfl

/-- Claim C6, counterexample: the claim quantifies over every previous
and current voicing, but the scorer's Python truthiness guards skip a
voice whose note is 0 (a valid MIDI pitch): with a current soprano of
pitch 0 the code omits that voice's +10.0 large-leap factor and its
-2.0 contrary-motion factor, so the returned score differs from the
spec's tabulated sum. -/
theorem C6_counterexample :
    total_score (some (Voicing.toP ⟨64, 60, 55, 48⟩))
        (Voicing.toP ⟨0, 60, 55, 48⟩) 1 none none ≠
      specScore (some ⟨64, 60, 55, 48⟩) ⟨0, 60, 55, 48⟩ 1 none none := by
  with_unfolding_all decide

/-- Claim C6, amended: for every previous voicing (possibly absent),
current voicing, bass-motion integer and optional root/leading-tone
pitch classes, PROVIDED every upper-voice pitch involved is nonzero
(the code's truthiness guards treat pitch 0 like an absent note), the
returned soft score equals the spec's tabulated sum: per upper voice
the motion factor (0.0 / +1.0 / +3.0 / +10.0) plus the bass-relation
factor (-2.0 contrary, +2.0 similar, 0 when either motion is zero),
plus the root-doubling factor (-1.0 when doubled, +5.0 when absent),
plus +10.0 for a doubled leading tone, plus 0.1 times the variance of
the three adjacent-voice gaps. -/
theorem C6_total_score_eq (prev : Option Voicing) (curr : Voicing) (bm : Int)
    (root lt : Option Int)
    (hprev : ∀ p, prev = some p → p.s ≠ 0 ∧ p.a ≠ 0 ∧ p.t ≠ 0)
    (hcurr : curr.s ≠ 0 ∧ curr.a ≠ 0 ∧ curr.t ≠ 0) :
    total_score (prev.map Voicing.toP) (Voicing.toP curr) bm root lt =
      specScore prev curr bm root lt := by
  have hdl : (match root with
      | some r => score_doubling (Voicing.toP curr) r
      | none => (0 : ℚ)) =
      (match root with
      | some r => specRootTerm curr r
      | none => (0 : ℚ)) := by
    cases root with
    | none => rfl
    | some r => exact score_doubling_eq curr r
  have hlt : (match lt with
      | some l => score_leading_tone_doubling (Voicing.toP curr) l
      | none => (0 : ℚ)) =
      (match lt with
      | some l => specLtTerm curr l
      | none => (0 : ℚ)) := by
    cases lt with
    | none => rfl
    | some l => exact score_lt_eq curr l
  cases prev with
  | none =>
    simp only [total_score, specScore, Option.map_none', List.foldl]
    rw [hdl, hlt, score_spacing_eq]
    have hterm : ∀ v, totalScoreVoiceTerm none (Voicing.toP curr) bm v = 0 := by
      intro v
      simp only [totalScoreVoiceTerm, toP_get]
      split
      · rfl
      · simp [score_voice_motion]
    rw [hterm, hterm, hterm]
    ring
  | some p =>
    rcases hprev p rfl with ⟨hp1, hp2, hp3⟩
    rcases hcurr with ⟨hc1, hc2, hc3⟩
    simp only [total_score, specScore, Option.map_some', List.foldl]
    rw [hdl, hlt, score_spacing_eq,
      voiceTerm_eq p curr bm .SOPRANO hp1 hc1,
      voiceTerm_eq p curr bm .ALTO hp2 hc2,
      voiceTerm_eq p curr bm .TENOR hp3 hc3]
    ring

/-- Claim C6, witness: the amended theorem applied to two concrete
all-nonzero voicings with bass motion 2, root pitch class 0 and
leading-tone pitch class 11. -/
theorem C6_total_score_eq_witness :
    total_score (some (Voicing.toP ⟨64, 60, 55, 48⟩))
        (Voicing.toP ⟨65, 62, 57, 50⟩) 2 (some 0) (some 11) =
      specScore (some ⟨64, 60, 55, 48⟩) ⟨65, 62, 57, 50⟩ 2 (some 0) (some 11) :=
  C6_total_score_eq (some ⟨64, 60, 55, 48⟩) ⟨65, 62, 57, 50⟩ 2 (some 0) (some 11)
    (by intro p hp; cases hp; exact ⟨by decide, by decide, by decide⟩)
    ⟨by decide, by decide, by decide⟩

/-- Claim C7 (code-bug evidence): on the spec's worked range-clamp
example (a voicing with S=50), find_errors does report the range
violation, but correct_errors then fails with a KeyError: it looks the
Enum member up by NAME via Voice[error["voice"]] while the stored value
is the single-letter tag "S".  Moreover, even when the lookup succeeds
(an error record carrying the member name "SOPRANO"), the clamp is
written into a dict copy that is never stored back, so the returned
sequence still carries S=50 instead of the claimed S=60. -/
theorem C7_range_clamp_bug :
    find_errors [⟨some 50, some 55, some 48, some 40⟩] =
        [⟨0, some "S", "range", "S note 50 outside range [60, 84]"⟩,
          ⟨0, none, "voice_crossing", "Soprano (50) < Alto (55)"⟩] ∧
      voiceByName "S" = none ∧ voiceByName "SOPRANO" = some .SOPRANO ∧
      correct_errors [⟨some 50, some 55, some 48, some 40⟩]
          (find_errors [⟨some 50, some 55, some 48, some 40⟩]) =
        .error "KeyError: S" ∧
      correct_errors [⟨some 50, some 55, some 48, some 40⟩]
          [⟨0, some "SOPRANO", "range", "S note 50 outside range [60, 84]"⟩] =
        .ok [⟨some 50, some 55, some 48, some 40⟩] := by
  with_unfolding_all decide

/-- Claim C8, counterexample: the claim asserts that an unrecognized
chord quality surfaces an InvalidSpec error and the solver never
silently computes candidates.  The quality "banana" is not among the
nine recognized qualities, yet get_chord_tones silently returns the
major-triad template for it, candidate generation is non-empty, and
solve_step happily returns solutions. -/
theorem C8_counterexample :
    ("banana" ∉ ["major", "minor", "diminished", "augmented", "dominant7",
        "major7", "minor7", "half_diminished7", "fully_diminished7"]) ∧
      get_chord_tones 48 "banana" = [0, 4, 7] ∧
      get_chord_tones 48 "banana" = get_chord_tones 48 "major" ∧
      generate_candidate_notes .SOPRANO 48 "banana" ≠ [] ∧
      solve_step 10 48 [] "banana" ≠ [] := by
  with_unfolding_all decide

/-- Claim C8, amended: a chord quality outside the nine recognized
strings is silently treated as a major triad — get_chord_tones falls
through to the major template and candidate generation proceeds exactly
as for "major"; no error of any kind is raised. -/
theorem C8_unrecognized_quality_defaults (ct : String)
    (hct : ct ∉ ["major", "minor", "diminished", "augmented", "dominant7",
      "major7", "minor7", "half_diminished7", "fully_diminished7"]) :
    (∀ root, get_chord_tones root ct = get_chord_tones root "major") ∧
      ∀ v b, generate_candidate_notes v b ct =
        generate_candidate_notes v b "major" := by
  simp only [List.mem_cons, List.mem_singleton, not_or] at hct
  obtain ⟨h1, h2, h3, h4, h5, h6, h7, h8, h9⟩ := hct
  have htones : ∀ root, get_chord_tones root ct = get_chord_tones root "major" := by
    intro root
    simp [get_chord_tones, h1, h2, h3, h4, h5, h6, h7, h8, h9]
  refine ⟨htones, fun v b => ?_⟩
  simp only [generate_candidate_notes, htones b]

/-- Claim C8, witness: the amended theorem applied to the unrecognized
quality "banana". -/
theorem C8_unrecognized_quality_defaults_witness :
    get_chord_tones 48 "banana" = get_chord_tones 48 "major" ∧
      generate_candidate_notes .SOPRANO 48 "banana" =
        generate_candidate_notes .SOPRANO 48 "major" :=
  ⟨(C8_unrecognized_quality_defaults "banana" (by decide)).1 48,
    (C8_unrecognized_quality_defaults "banana" (by decide)).2 .SOPRANO 48⟩

/-- Claim C9 (code-bug evidence): for a middle cantus-firmus note the
candidate generator enumerates offsets {3, 4, 5, 6, 8, 10} plus the
octave — the inline comment labels the list "m3, M3, P4, P5, M6, m7",
but the written 6 is the tritone, not the perfect fifth 7.  Over cf=60
(above, non-boundary) the candidates therefore contain 66 (tritone,
which the downstream dissonance filter {0,1,2,6,10,11} always rejects)
and omit 67 (the perfect fifth); the unison and fifth appear only when
the note is first or last. -/
theorem C9_counterpoint_intervals_bug :
    (generate_counterpoint_candidates 60 none true false false).Perm
        [63, 64, 65, 66, 68, 70, 72] ∧
      (66 : Int) ∈ generate_counterpoint_candidates 60 none true false false ∧
      (|66 - 60| % 12 : Int) ∈ ([0, 1, 2, 6, 10, 11] : List Int) ∧
      (67 : Int) ∉ generate_counterpoint_candidates 60 none true false false ∧
      (60 : Int) ∉ generate_counterpoint_candidates 60 none true false false ∧
      (67 : Int) ∈ generate_counterpoint_candidates 60 none true true false ∧
      (60 : Int) ∈ generate_counterpoint_candidates 60 none true true false := by
  with_unfolding_all decide

/-- The parallel-fifths violation record emitted for an ordered voice
pair. -/
def fifthViol (v1 v2 : Voice) : ConstraintViolation :=
  ⟨"parallel_fifths",
    "Parallel fifths between " ++ v1.value ++ " and " ++ v2.value, "hard"⟩

/-- The parallel-octaves violation record emitted for an ordered voice
pair. -/
def octaveViol (v1 v2 : Voice) : ConstraintViolation :=
  ⟨"parallel_octaves",
    "Parallel octaves between " ++ v1.value ++ " and " ++ v2.value, "hard"⟩

/-- The hidden-fifths/octaves violation record emitted for an ordered
voice pair. -/
def hiddenViol (v1 v2 : Voice) : ConstraintViolation :=
  ⟨"hidden_fifths_octaves",
    "Hidden P5/P8 between " ++ v1.value ++ " and " ++ v2.value ++
      " in parallel motion", "hard"⟩

lemma is_perfect_fifth_comm (a b : Int) :
    is_perfect_fifth a b = is_perfect_fifth b a := by
  unfold is_perfect_fifth get_interval_semitones
  rw [abs_sub_comm]

lemma is_perfect_octave_comm (a b : Int) :
    is_perfect_octave a b = is_perfect_octave b a := by
  unfold is_perfect_octave get_interval_semitones
  rw [abs_sub_comm]

lemma parallelFifthAt_pos {p c : Voicing} {v1 v2 : Voice} (hne : v1 ≠ v2)
    (h5p : is_perfect_fifth (p.get v1) (p.get v2) = true)
    (h5c : is_perfect_fifth (c.get v1) (c.get v2) = true)
    (hm1 : c.get v1 - p.get v1 ≠ 0) (hm2 : c.get v2 - p.get v2 ≠ 0)
    (hdir : (c.get v1 - p.get v1) * (c.get v2 - p.get v2) > 0) :
    parallelFifthAt p.toP c.toP (v1, v2) = some (fifthViol v1 v2) := by
  unfold parallelFifthAt
  rw [if_neg hne]
  simp only [toP_get]
  rw [if_pos ⟨h5p, h5c⟩, if_pos ⟨hm1, hm2, hdir⟩]
  rfl

lemma parallelOctaveAt_pos {p c : Voicing} {v1 v2 : Voice} (hne : v1 ≠ v2)
    (h0p : is_perfect_octave (p.get v1) (p.get v2) = true)
    (h0c : is_perfect_octave (c.get v1) (c.get v2) = true)
    (hm1 : c.get v1 - p.get v1 ≠ 0) (hm2 : c.get v2 - p.get v2 ≠ 0)
    (hdir : (c.get v1 - p.get v1) * (c.get v2 - p.get v2) > 0) :
    parallelOctaveAt p.toP c.toP (v1, v2) = some (octaveViol v1 v2) := by
  unfold parallelOctaveAt
  rw [if_neg hne]
  simp only [toP_get]
  rw [if_pos ⟨h0p, h0c⟩, if_pos ⟨hm1, hm2, hdir⟩]
  rfl

lemma hiddenAt_pos {p c : Voicing} {v1 v2 : Voice} (hne : v1 ≠ v2)
    (hm1 : c.get v1 - p.get v1 ≠ 0) (hm2 : c.get v2 - p.get v2 ≠ 0)
    (hdir : (c.get v1 - p.get v1) * (c.get v2 - p.get v2) > 0)
    (harr : is_perfect_fifth (c.get v1) (c.get v2) = true ∨
      is_perfect_octave (c.get v1) (c.get v2) = true) :
    hiddenAt p.toP c.toP (v1, v2) = some (hiddenViol v1 v2) := by
  unfold hiddenAt
  rw [if_neg hne]
  simp only [toP_get]
  rw [if_pos ⟨hm1, hm2, hdir⟩, if_pos harr]
  rfl

lemma fifthViol_ne {v1 v2 : Voice} (hne : v1 ≠ v2) :
    fifthViol v1 v2 ≠ fifthViol v2 v1 := by
  cases v1 <;> cases v2 <;> first | exact absurd rfl hne | decide

lemma octaveViol_ne {v1 v2 : Voice} (hne : v1 ≠ v2) :
    octaveViol v1 v2 ≠ octaveViol v2 v1 := by
  cases v1 <;> cases v2 <;> first | exact absurd rfl hne | decide

lemma hiddenViol_ne {v1 v2 : Voice} (hne : v1 ≠ v2) :
    hiddenViol v1 v2 ≠ hiddenViol v2 v1 := by
  cases v1 <;> cases v2 <;> first | exact absurd rfl hne | decide

lemma parallelFifthAt_some_eq {p c : PVoicing} {pr : Voice × Voice}
    {viol : ConstraintViolation} (h : parallelFifthAt p c pr = some viol) :
    viol = fifthViol pr.1 pr.2 := by
  unfold parallelFifthAt at h
  split at h
  · cases h
  · split at h
    · split at h
      · split at h
        · cases h; rfl
        · cases h
      · cases h
    · cases h

lemma parallelOctaveAt_some_eq {p c : PVoicing} {pr : Voice × Voice}
    {viol : ConstraintViolation} (h : parallelOctaveAt p c pr = some viol) :
    viol = octaveViol pr.1 pr.2 := by
  unfold parallelOctaveAt at h
  split at h
  · cases h
  · split at h
    · split at h
      · split at h
        · cases h; rfl
        · cases h
      · cases h
    · cases h

lemma fifthViol_pair_inj :
    ∀ u1 u2 w1 w2 : Voice, fifthViol u1 u2 = fifthViol w1 w2 → u1 = w1 ∧ u2 = w2 := by
  decide

lemma octaveViol_pair_inj :
    ∀ u1 u2 w1 w2 : Voice, octaveViol u1 u2 = octaveViol w1 w2 → u1 = w1 ∧ u2 = w2 := by
  decide

lemma voicePairs_count : ∀ v1 v2 : Voice, voicePairs.count (v1, v2) = 1 := by
  decide

lemma fifth_count_one {p c : Voicing} {v1 v2 : Voice} (hne : v1 ≠ v2)
    (h5p : is_perfect_fifth (p.get v1) (p.get v2) = true)
    (h5c : is_perfect_fifth (c.get v1) (c.get v2) = true)
    (hm1 : c.get v1 - p.get v1 ≠ 0) (hm2 : c.get v2 - p.get v2 ≠ 0)
    (hdir : (c.get v1 - p.get v1) * (c.get v2 - p.get v2) > 0) :
    (check_parallel_fifths p.toP c.toP).count (fifthViol v1 v2) = 1 := by
  unfold check_parallel_fifths
  rw [List.count_filterMap]
  have hiff : ∀ pr ∈ voicePairs,
      (parallelFifthAt p.toP c.toP pr == some (fifthViol v1 v2)) = true ↔
        (pr == (v1, v2)) = true := by
    intro pr _
    simp only [beq_iff_eq]
    constructor
    · intro hsome
      rcases fifthViol_pair_inj pr.1 pr.2 v1 v2
        (parallelFifthAt_some_eq hsome).symm with ⟨he1, he2⟩
      exact Prod.ext he1 he2
    · rintro rfl
      exact parallelFifthAt_pos hne h5p h5c hm1 hm2 hdir
  rw [List.countP_congr hiff]
  exact voicePairs_count v1 v2

lemma octave_count_one {p c : Voicing} {v1 v2 : Voice} (hne : v1 ≠ v2)
    (h0p : is_perfect_octave (p.get v1) (p.get v2) = true)
    (h0c : is_perfect_octave (c.get v1) (c.get v2) = true)
    (hm1 : c.get v1 - p.get v1 ≠ 0) (hm2 : c.get v2 - p.get v2 ≠ 0)
    (hdir : (c.get v1 - p.get v1) * (c.get v2 - p.get v2) > 0) :
    (check_parallel_octaves p.toP c.toP).count (octaveViol v1 v2) = 1 := by
  unfold check_parallel_octaves
  rw [List.count_filterMap]
  have hiff : ∀ pr ∈ voicePairs,
      (parallelOctaveAt p.toP c.toP pr == some (octaveViol v1 v2)) = true ↔
        (pr == (v1, v2)) = true := by
    intro pr _
    simp only [beq_iff_eq]
    constructor
    · intro hsome
      rcases octaveViol_pair_inj pr.1 pr.2 v1 v2
        (parallelOctaveAt_some_eq hsome).symm with ⟨he1, he2⟩
      exact Prod.ext he1 he2
    · rintro rfl
      exact parallelOctaveAt_pos hne h0p h0c hm1 hm2 hdir
  rw [List.countP_congr hiff]
  exact voicePairs_count v1 v2

lemma hidden_two_le {p c : Voicing} {v1 v2 : Voice} (hne : v1 ≠ v2)
    (hm1 : c.get v1 - p.get v1 ≠ 0) (hm2 : c.get v2 - p.get v2 ≠ 0)
    (hdir : (c.get v1 - p.get v1) * (c.get v2 - p.get v2) > 0)
    (harr : is_perfect_fifth (c.get v1) (c.get v2) = true ∨
      is_perfect_octave (c.get v1) (c.get v2) = true) :
    2 ≤ (check_hidden_fifths_octaves p.toP c.toP).length := by
  have harr2 : is_perfect_fifth (c.get v2) (c.get v1) = true ∨
      is_perfect_octave (c.get v2) (c.get v1) = true := by
    rcases harr with h | h
    · exact Or.inl ((is_perfect_fifth_comm _ _).trans h)
    · exact Or.inr ((is_perfect_octave_comm _ _).trans h)
  have h12 : hiddenViol v1 v2 ∈ check_hidden_fifths_octaves p.toP c.toP :=
    List.mem_filterMap.2 ⟨(v1, v2), mem_voicePairs v1 v2,
      hiddenAt_pos hne hm1 hm2 hdir harr⟩
  have h21 : hiddenViol v2 v1 ∈ check_hidden_fifths_octaves p.toP c.toP :=
    List.mem_filterMap.2 ⟨(v2, v1), mem_voicePairs v2 v1,
      hiddenAt_pos hne.symm hm2 hm1 (by rwa [mul_comm] at hdir) harr2⟩
  exact two_le_length_of_mem h12 h21 (hiddenViol_ne hne)

/-- Claim C10: a single parallel-fifth (resp. parallel-octave) event —
two distinct voices at interval-class 7 (resp. 0) on both steps, moving
in the same non-zero direction — makes check_parallels emit the
parallel-fifths (resp. parallel-octaves) violation exactly once for
each of the two orderings of the voice pair, plus at least two
hidden_fifths_octaves violations for the same motion, hence at least
four violations in total, and every violation the combined check
returns is hard. -/
theorem C10_parallel_multiplicity (prev curr : Voicing) (v1 v2 : Voice)
    (hne : v1 ≠ v2) :
    ((is_perfect_fifth (prev.get v1) (prev.get v2) = true ∧
      is_perfect_fifth (curr.get v1) (curr.get v2) = true ∧
      curr.get v1 - prev.get v1 ≠ 0 ∧ curr.get v2 - prev.get v2 ≠ 0 ∧
      (curr.get v1 - prev.get v1) * (curr.get v2 - prev.get v2) > 0) →
      (check_parallel_fifths prev.toP curr.toP).count (fifthViol v1 v2) = 1 ∧
        (check_parallel_fifths prev.toP curr.toP).count (fifthViol v2 v1) = 1 ∧
        2 ≤ (check_parallel_fifths prev.toP curr.toP).length ∧
        2 ≤ (check_hidden_fifths_octaves prev.toP curr.toP).length ∧
        4 ≤ (check_parallels prev.toP curr.toP).length) ∧
    ((is_perfect_octave (prev.get v1) (prev.get v2) = true ∧
      is_perfect_octave (curr.get v1) (curr.get v2) = true ∧
      curr.get v1 - prev.get v1 ≠ 0 ∧ curr.get v2 - prev.get v2 ≠ 0 ∧
      (curr.get v1 - prev.get v1) * (curr.get v2 - prev.get v2) > 0) →
      (check_parallel_octaves prev.toP curr.toP).count (octaveViol v1 v2) = 1 ∧
        (check_parallel_octaves prev.toP curr.toP).count (octaveViol v2 v1) = 1 ∧
        2 ≤ (check_parallel_octaves prev.toP curr.toP).length ∧
        2 ≤ (check_hidden_fifths_octaves prev.toP curr.toP).length ∧
        4 ≤ (check_parallels prev.toP curr.toP).length) ∧
    (∀ v ∈ check_parallels prev.toP curr.toP, v.severity = "hard") := by
  refine ⟨?_, ?_, fun v hv => check_parallels_hard hv⟩
  · rintro ⟨h5p, h5c, hm1, hm2, hdir⟩
    have h12 : fifthViol v1 v2 ∈ check_parallel_fifths prev.toP curr.toP :=
      List.mem_filterMap.2 ⟨(v1, v2), mem_voicePairs v1 v2,
        parallelFifthAt_pos hne h5p h5c hm1 hm2 hdir⟩
    have h21 : fifthViol v2 v1 ∈ check_parallel_fifths prev.toP curr.toP :=
      List.mem_filterMap.2 ⟨(v2, v1), mem_voicePairs v2 v1,
        parallelFifthAt_pos hne.symm
          ((is_perfect_fifth_comm _ _).trans h5p)
          ((is_perfect_fifth_comm _ _).trans h5c)
          hm2 hm1 (by rwa [mul_comm] at hdir)⟩
    have hl5 : 2 ≤ (check_parallel_fifths prev.toP curr.toP).length :=
      two_le_length_of_mem h12 h21 (fifthViol_ne hne)
    have hlh : 2 ≤ (check_hidden_fifths_octaves prev.toP curr.toP).length :=
      hidden_two_le hne hm1 hm2 hdir (Or.inl h5c)
    refine ⟨fifth_count_one hne h5p h5c hm1 hm2 hdir, ?_, hl5, hlh, ?_⟩
    · exact fifth_count_one hne.symm
        ((is_perfect_fifth_comm _ _).trans h5p)
        ((is_perfect_fifth_comm _ _).trans h5c)
        hm2 hm1 (by rwa [mul_comm] at hdir)
    · unfold check_parallels
      simp only [List.length_append]
      omega
  · rintro ⟨h0p, h0c, hm1, hm2, hdir⟩
    have h12 : octaveViol v1 v2 ∈ check_parallel_octaves prev.toP curr.toP :=
      List.mem_filterMap.2 ⟨(v1, v2), mem_voicePairs v1 v2,
        parallelOctaveAt_pos hne h0p h0c hm1 hm2 hdir⟩
    have h21 : octaveViol v2 v1 ∈ check_parallel_octaves prev.toP curr.toP :=
      List.mem_filterMap.2 ⟨(v2, v1), mem_voicePairs v2 v1,
        parallelOctaveAt_pos hne.symm
          ((is_perfect_octave_comm _ _).trans h0p)
          ((is_perfect_octave_comm _ _).trans h0c)
          hm2 hm1 (by rwa [mul_comm] at hdir)⟩
    have hl8 : 2 ≤ (check_parallel_octaves prev.toP curr.toP).length :=
      two_le_length_of_mem h12 h21 (octaveViol_ne hne)
    have hlh : 2 ≤ (check_hidden_fifths_octaves prev.toP curr.toP).length :=
      hidden_two_le hne hm1 hm2 hdir (Or.inr h0c)
    refine ⟨octave_count_one hne h0p h0c hm1 hm2 hdir, ?_, hl8, hlh, ?_⟩
    · exact octave_count_one hne.symm
        ((is_perfect_octave_comm _ _).trans h0p)
        ((is_perfect_octave_comm _ _).trans h0c)
        hm2 hm1 (by rwa [mul_comm] at hdir)
    · unfold check_parallels
      simp only [List.length_append]
      omega

/-- Claim C10, witness: the theorem applied to a concrete
parallel-fifth motion (soprano/alto over ⟨67,60,55,48⟩ → ⟨69,62,55,48⟩)
and a concrete parallel-octave motion (alto/bass over ⟨67,60,55,48⟩ →
⟨69,62,55,50⟩). -/
theorem C10_parallel_multiplicity_witness :
    ((check_parallel_fifths (Voicing.toP ⟨67, 60, 55, 48⟩)
          (Voicing.toP ⟨69, 62, 55, 48⟩)).count (fifthViol .SOPRANO .ALTO) = 1 ∧
      (check_parallel_fifths (Voicing.toP ⟨67, 60, 55, 48⟩)
          (Voicing.toP ⟨69, 62, 55, 48⟩)).count (fifthViol .ALTO .SOPRANO) = 1 ∧
      2 ≤ (check_parallel_fifths (Voicing.toP ⟨67, 60, 55, 48⟩)
          (Voicing.toP ⟨69, 62, 55, 48⟩)).length ∧
      2 ≤ (check_hidden_fifths_octaves (Voicing.toP ⟨67, 60, 55, 48⟩)
          (Voicing.toP ⟨69, 62, 55, 48⟩)).length ∧
      4 ≤ (check_parallels (Voicing.toP ⟨67, 60, 55, 48⟩)
          (Voicing.toP ⟨69, 62, 55, 48⟩)).length) ∧
    ((check_parallel_octaves (Voicing.toP ⟨67, 60, 55, 48⟩)
          (Voicing.toP ⟨69, 62, 55, 50⟩)).count (octaveViol .ALTO .BASS) = 1 ∧
      (check_parallel_octaves (Voicing.toP ⟨67, 60, 55, 48⟩)
          (Voicing.toP ⟨69, 62, 55, 50⟩)).count (octaveViol .BASS .ALTO) = 1 ∧
      2 ≤ (check_parallel_octaves (Voicing.toP ⟨67, 60, 55, 48⟩)
          (Voicing.toP ⟨69, 62, 55, 50⟩)).length ∧
      2 ≤ (check_hidden_fifths_octaves (Voicing.toP ⟨67, 60, 55, 48⟩)
          (Voicing.toP ⟨69, 62, 55, 50⟩)).length ∧
      4 ≤ (check_parallels (Voicing.toP ⟨67, 60, 55, 48⟩)
          (Voicing.toP ⟨69, 62, 55, 50⟩)).length) :=
  ⟨(C10_parallel_multiplicity ⟨67, 60, 55, 48⟩ ⟨69, 62, 55, 48⟩
      .SOPRANO .ALTO (by decide)).1 (by decide),
    (C10_parallel_multiplicity ⟨67, 60, 55, 48⟩ ⟨69, 62, 55, 50⟩
      .ALTO .BASS (by decide)).2.1 (by decide)⟩

/-- Claim C3, witness: the theorem applied to the solve of [48, 53]
with beam width 1, at the consecutive pair of emitted steps and the
soprano/alto voice pair. -/
theorem C3_no_parallel_perfects_witness :
    ¬(is_perfect_fifth 84 72 = true ∧ is_perfect_fifth 84 72 = true ∧
        (84 - 84 : Int) ≠ 0 ∧ (72 - 72 : Int) ≠ 0 ∧
        ((84 - 84 : Int)) * ((72 - 72 : Int)) > 0) ∧
    ¬(is_perfect_octave 84 72 = true ∧ is_perfect_octave 84 72 = true ∧
        (84 - 84 : Int) ≠ 0 ∧ (72 - 72 : Int) ≠ 0 ∧
        ((84 - 84 : Int)) * ((72 - 72 : Int)) > 0) :=
  C3_no_parallel_perfects 1 [48, 53] [] runBass4853
    (by with_unfolding_all decide) 0 (by decide) (by decide) rfl rfl
    .SOPRANO .ALTO (by decide)

end Harmonizer
